import Mathlib

/-!
Verification of the ConfigBridge tool (src/examples/interop_demo.py).

The script reads the JSON file azure_credentials.json from the working
directory, prints selected fields, adds Python-specific keys, and writes the
result to azure_credentials.python.json.

Shallow embedding conventions:
* a Python string is a list of unicode scalar values (List Char);
* a JSON document is the mutual inductive JVal / JObj / JArr below, with
  JObj an ordered association sequence mirroring the insertion-ordered
  Python dict produced by json.load (numbers are modelled as integers:
  every numeral in the program and in the specified scenario inputs is an
  integer, and float values are outside the embedded domain);
* fallible Python expressions (subscripts, membership tests, attribute
  access, item assignment) return Except PyErr;
* the serializer emitVal mirrors json.dump(config, f, indent=2) with its
  default ensure_ascii=True escaping (including surrogate-pair escapes for
  astral characters), and the parser parseVal mirrors json.loads in strict
  mode, except that a numeral continued by a fraction or exponent and a
  string escape denoting a lone surrogate are rejected rather than fall
  outside the embedded value domain;
* console rendering is abstracted: each print statement is recorded as an
  Out event whose payloads are the exact values the corresponding f-string
  expressions evaluate to, so that the fallible evaluation of those
  expressions is still modelled faithfully.
-/

/-- A Python string: a sequence of unicode scalar values. -/
abbrev Str := List Char

/-- The characters json.loads treats as whitespace between tokens. -/
def isWsChar (c : Char) : Bool :=
  c = ' ' || c = '\t' || c = '\n' || c = '\r'

/-- Drop leading JSON whitespace. -/
def skipWs : Str → Str
  | [] => []
  | c :: r => if isWsChar c then skipWs r else c :: r

/-- Lowercase hexadecimal digit for a value below 16 (as emitted by
json.dump for non-ASCII escapes). -/
def hexDigit (n : Nat) : Char :=
  Char.ofNat (if n < 10 then 48 + n else 87 + n)

/-- Four lowercase hex digits of a code unit below 0x10000. -/
def hex4 (n : Nat) : Str :=
  [hexDigit (n / 4096 % 16), hexDigit (n / 256 % 16),
   hexDigit (n / 16 % 16), hexDigit (n % 16)]

/-- Value of one hexadecimal digit, accepting both cases as json.loads
does. -/
def hexVal (c : Char) : Option Nat :=
  if 48 ≤ c.toNat ∧ c.toNat ≤ 57 then some (c.toNat - 48)
  else if 97 ≤ c.toNat ∧ c.toNat ≤ 102 then some (c.toNat - 87)
  else if 65 ≤ c.toNat ∧ c.toNat ≤ 70 then some (c.toNat - 55)
  else none

/-- Combine four hexadecimal digits. -/
def hexVal4 (a b c d : Char) : Option Nat :=
  match hexVal a, hexVal b, hexVal c, hexVal d with
  | some x, some y, some z, some w => some (((x * 16 + y) * 16 + z) * 16 + w)
  | _, _, _, _ => none

/-- Decimal digit character. -/
def digitChar (d : Nat) : Char :=
  Char.ofNat (48 + d)

/-- Decimal representation of a natural number, as Python prints integers. -/
def natRep (n : Nat) : Str :=
  if _h : n < 10 then [digitChar n]
  else natRep (n / 10) ++ [digitChar (n % 10)]
termination_by n
decreasing_by exact Nat.div_lt_self (by omega) (by omega)

/-- Decimal representation of an integer. -/
def intRep (i : Int) : Str :=
  if i < 0 then '-' :: natRep i.natAbs else natRep i.toNat

mutual
/-- A JSON value as held in memory by the Python script after json.load:
null, bool, integer, string, insertion-ordered object, or array. -/
inductive JVal : Type where
  | jnull : JVal
  | jbool (b : Bool) : JVal
  | jnum (n : Int) : JVal
  | jstr (s : Str) : JVal
  | jobj (m : JObj) : JVal
  | jarr (a : JArr) : JVal

/-- The ordered key/value sequence of a JSON object (a Python dict in
insertion order). -/
inductive JObj : Type where
  | onil : JObj
  | ocons (k : Str) (v : JVal) (r : JObj) : JObj

/-- The element sequence of a JSON array. -/
inductive JArr : Type where
  | anil : JArr
  | acons (v : JVal) (r : JArr) : JArr
end

/-- Dict lookup: the value stored under a key, if present. -/
def objGet : JObj → Str → Option JVal
  | .onil, _ => none
  | .ocons k v r, key => if key = k then some v else objGet r key

/-- Dict key membership. -/
def objHas (m : JObj) (k : Str) : Bool :=
  (objGet m k).isSome

/-- Dict item assignment d[k] = v: overwrite in place if the key exists
(keeping its position, as a Python dict does), else append at the end. -/
def objSet : JObj → Str → JVal → JObj
  | .onil, k, v => .ocons k v .onil
  | .ocons k0 v0 r, k, v =>
    if k = k0 then .ocons k0 v r else .ocons k0 v0 (objSet r k v)

/-- Run a sequence of item assignments left to right, starting from an
accumulator dict (how json.loads materialises the parsed key/value pairs,
giving last-wins semantics for duplicate keys). -/
def objSetAll (acc : JObj) : JObj → JObj
  | .onil => acc
  | .ocons k v r => objSetAll (objSet acc k v) r

/-- Build a dict from parsed key/value pairs in order. -/
def objFromPairs (m : JObj) : JObj :=
  objSetAll .onil m

/-- Concatenation of two member sequences. -/
def objAppend : JObj → JObj → JObj
  | .onil, b => b
  | .ocons k v r, b => .ocons k v (objAppend r b)

/-- Whether some element of a Python list compares equal to a given string
(only string elements can: no other JSON value equals a str). -/
def arrHasStr : JArr → Str → Bool
  | .anil, _ => false
  | .acons v r, k =>
    (match v with
     | .jstr s => s = k
     | _ => false) || arrHasStr r k

/-- First n elements of a list, as the Python slice a[:n]. -/
def arrTake : Nat → JArr → JArr
  | 0, _ => .anil
  | _, .anil => .anil
  | n + 1, .acons v r => .acons v (arrTake n r)

mutual
/-- Structural well-formedness of an in-memory document: every object has
pairwise distinct keys (automatic for any value materialised from a Python
dict, which cannot hold a key twice). -/
def wfV : JVal → Bool
  | .jobj m => wfO m
  | .jarr a => wfA a
  | _ => true

/-- Object part of wfV. -/
def wfO : JObj → Bool
  | .onil => true
  | .ocons k v r => !objHas r k && wfV v && wfO r

/-- Array part of wfV. -/
def wfA : JArr → Bool
  | .anil => true
  | .acons v r => wfV v && wfA r
end

mutual
/-- Recursion budget sufficient to parse a value (used to justify the
parser fuel below). -/
def vsize : JVal → Nat
  | .jobj m => 1 + osize m
  | .jarr a => 1 + asize a
  | _ => 1

/-- Budget for an object member sequence. -/
def osize : JObj → Nat
  | .onil => 1
  | .ocons _ v r => 1 + vsize v + osize r

/-- Budget for an array element sequence. -/
def asize : JArr → Nat
  | .anil => 1
  | .acons v r => 1 + vsize v + asize r
end

/-- Indentation: n spaces. -/
def sp (n : Nat) : Str :=
  List.replicate n ' '

/-- How json.dump with ensure_ascii=True (the default) renders one
character of a string: the two-character escapes for quote, backslash and
the five short control escapes; printable ASCII verbatim; everything else
as a lowercase unicode escape, astral characters as a surrogate pair. -/
def escChar (c : Char) : Str :=
  if c = '"' then ['\\', '"']
  else if c = '\\' then ['\\', '\\']
  else if c = Char.ofNat 8 then ['\\', 'b']
  else if c = Char.ofNat 9 then ['\\', 't']
  else if c = Char.ofNat 10 then ['\\', 'n']
  else if c = Char.ofNat 12 then ['\\', 'f']
  else if c = Char.ofNat 13 then ['\\', 'r']
  else if 32 ≤ c.toNat ∧ c.toNat ≤ 126 then [c]
  else if c.toNat < 65536 then '\\' :: 'u' :: hex4 c.toNat
  else ('\\' :: 'u' :: hex4 (55296 + (c.toNat - 65536) / 1024)) ++
       ('\\' :: 'u' :: hex4 (56320 + (c.toNat - 65536) % 1024))

/-- Escape a whole string. -/
def escStr : Str → Str
  | [] => []
  | c :: s => escChar c ++ escStr s

/-- A JSON string literal: quotes around the escaped content. -/
def emitStr (s : Str) : Str :=
  '"' :: (escStr s ++ ['"'])

mutual
/-- Serialization of a value at nesting level l, exactly as
json.dump(config, f, indent=2) renders it: members and elements each on
their own line, indented two spaces per level, with item separator "," and
key separator ": ". -/
def emitVal (l : Nat) (v : JVal) : Str :=
  match v with
  | .jnull => ['n', 'u', 'l', 'l']
  | .jbool true => ['t', 'r', 'u', 'e']
  | .jbool false => ['f', 'a', 'l', 's', 'e']
  | .jnum n => intRep n
  | .jstr s => emitStr s
  | .jobj .onil => ['{', '}']
  | .jobj (.ocons k v1 r) =>
    '{' :: '\n' :: (emitMembers (l + 1) k v1 r ++ ('\n' :: (sp (2 * l) ++ ['}'])))
  | .jarr .anil => ['[', ']']
  | .jarr (.acons v1 r) =>
    '[' :: '\n' :: (emitItems (l + 1) v1 r ++ ('\n' :: (sp (2 * l) ++ [']'])))
termination_by sizeOf v

/-- Serialization of a nonempty member sequence at level l. -/
def emitMembers (l : Nat) (k : Str) (v : JVal) (r : JObj) : Str :=
  sp (2 * l) ++ (emitStr k ++ (':' :: ' ' :: (emitVal l v ++
    (match r with
     | .onil => []
     | .ocons k1 v1 r1 => ',' :: '\n' :: emitMembers l k1 v1 r1))))
termination_by 1 + sizeOf v + sizeOf r

/-- Serialization of a nonempty element sequence at level l. -/
def emitItems (l : Nat) (v : JVal) (r : JArr) : Str :=
  sp (2 * l) ++ (emitVal l v ++
    (match r with
     | .anil => []
     | .acons v1 r1 => ',' :: '\n' :: emitItems l v1 r1))
termination_by 1 + sizeOf v + sizeOf r
end

/-- The text json.dump(config, f, indent=2) writes for a document. -/
def dumps (v : JVal) : Str :=
  emitVal 0 v

/-- Accumulate a run of decimal digits. -/
def parseDigits (acc : Nat) : Str → Nat × Str
  | [] => (acc, [])
  | c :: r =>
    if c.isDigit then parseDigits (acc * 10 + (c.toNat - 48)) r else (acc, c :: r)

/-- Whether the numeral continues with a fraction or exponent (a float,
outside the embedded integer domain). -/
def numTail : Str → Bool
  | [] => false
  | c :: _ => c = '.' || c = 'e' || c = 'E'

/-- Parse an unsigned JSON integer: a single 0, or a nonzero digit followed
by digits; reject floats. -/
def parseUNum : Str → Option (Nat × Str)
  | [] => none
  | c :: r =>
    if c = '0' then
      if numTail r then none else some (0, r)
    else if c.isDigit then
      match parseDigits 0 (c :: r) with
      | (m, r1) => if numTail r1 then none else some (m, r1)
    else none

/-- Parse a JSON integer with optional leading minus. -/
def parseNum (s : Str) : Option (Int × Str) :=
  match s with
  | [] => none
  | c :: r =>
    if c = '-' then
      match parseUNum r with
      | some (m, r1) => some (-(m : Int), r1)
      | none => none
    else
      match parseUNum s with
      | some (m, r1) => some ((m : Int), r1)
      | none => none

/-- Decode the one-character string escapes of JSON. -/
def escDecode (e : Char) : Option Char :=
  if e = '"' then some '"'
  else if e = '\\' then some '\\'
  else if e = '/' then some '/'
  else if e = 'b' then some (Char.ofNat 8)
  else if e = 'f' then some (Char.ofNat 12)
  else if e = 'n' then some (Char.ofNat 10)
  else if e = 'r' then some (Char.ofNat 13)
  else if e = 't' then some (Char.ofNat 9)
  else none

/-- A scalar-value character from a code point, refusing surrogate code
points (not representable as a unicode scalar value). -/
def mkChar (n : Nat) : Option Char :=
  if n.isValidChar then some (Char.ofNat n) else none

/-- Four hexadecimal digits at the head of the input, as consumed right
after a backslash-u escape introducer. -/
def hexEsc : Str → Option (Nat × Str)
  | a :: b :: c :: d :: r =>
    (match hexVal4 a b c d with
     | some n => some (n, r)
     | none => none)
  | _ => none

/-- One decoded unit of a JSON string body: the closing quote, one
character, or a decoding error. -/
inductive StrStep : Type where
  | done (r : Str) : StrStep
  | chr (c : Char) (r : Str) : StrStep
  | bad : StrStep

/-- Decode the low half of a surrogate-pair escape, given the high
surrogate value already read. -/
def pairEsc (n : Nat) (s : Str) : StrStep :=
  match s with
  | x :: y :: r =>
    if x = '\\' ∧ y = 'u' then
      match hexEsc r with
      | some (m, r4) =>
        if 56320 ≤ m ∧ m ≤ 57343 then
          match mkChar (65536 + (n - 55296) * 1024 + (m - 56320)) with
          | some ch => .chr ch r4
          | none => .bad
        else .bad
      | none => .bad
    else .bad
  | _ => .bad

/-- Decode a backslash-u escape: either a plain code unit or the start of
a surrogate pair (a lone surrogate escape is rejected: it has no unicode
scalar value in the embedded string domain). -/
def uEsc (s : Str) : StrStep :=
  match hexEsc s with
  | some (n, r3) =>
    if 55296 ≤ n ∧ n ≤ 56319 then pairEsc n r3
    else
      match mkChar n with
      | some ch => .chr ch r3
      | none => .bad
  | none => .bad

/-- Decode the escape sequence after a backslash. -/
def escStep (s : Str) : StrStep :=
  match s with
  | [] => .bad
  | e :: r2 =>
    if e = 'u' then uEsc r2
    else
      match escDecode e with
      | some ch => .chr ch r2
      | none => .bad

/-- Decode one unit of a JSON string body in the strict mode json.loads
uses: a raw control character is rejected, everything else printable
stands for itself, a backslash starts an escape. -/
def strStep : Str → StrStep
  | [] => .bad
  | c :: r =>
    if c = '"' then .done r
    else if c = '\\' then escStep r
    else if 32 ≤ c.toNat then .chr c r
    else .bad

/-- Parse the body of a JSON string literal after the opening quote. The
fuel only bounds the loop for the termination checker; every step consumes
at least one character, so the callers pass one more than the length of
the remaining input and the bound is never hit. -/
def parseStrBody : Nat → Str → Option (Str × Str)
  | 0, _ => none
  | f + 1, s =>
    match strStep s with
    | .done r => some ([], r)
    | .chr c r =>
      (match parseStrBody f r with
       | some (s1, r5) => some (c :: s1, r5)
       | none => none)
    | .bad => none
mutual
/-- Recursive-descent JSON value parser with a fuel bound, mirroring the
strict json.loads grammar over the embedded domain. Leading whitespace is
skipped; the unconsumed suffix is returned. -/
def parseVal : Nat → Str → Option (JVal × Str)
  | 0, _ => none
  | f + 1, s =>
    match skipWs s with
    | [] => none
    | c :: r =>
      if c = '{' then
        match skipWs r with
        | '}' :: r2 => some (.jobj .onil, r2)
        | r1 =>
          match parseMembs f r1 with
          | some (pairs, r2) => some (.jobj (objFromPairs pairs), r2)
          | none => none
      else if c = '[' then
        match skipWs r with
        | ']' :: r2 => some (.jarr .anil, r2)
        | r1 =>
          match parseItems f r1 with
          | some (a, r2) => some (.jarr a, r2)
          | none => none
      else if c = '"' then
        match parseStrBody (r.length + 1) r with
        | some (s1, r2) => some (.jstr s1, r2)
        | none => none
      else if c = 't' then
        match r with
        | 'r' :: 'u' :: 'e' :: r2 => some (.jbool true, r2)
        | _ => none
      else if c = 'f' then
        match r with
        | 'a' :: 'l' :: 's' :: 'e' :: r2 => some (.jbool false, r2)
        | _ => none
      else if c = 'n' then
        match r with
        | 'u' :: 'l' :: 'l' :: r2 => some (.jnull, r2)
        | _ => none
      else
        match parseNum (c :: r) with
        | some (i, r2) => some (.jnum i, r2)
        | none => none

/-- Parse a nonempty key/value member sequence up to and including the
closing brace; the pairs are returned in source order. -/
def parseMembs : Nat → Str → Option (JObj × Str)
  | 0, _ => none
  | f + 1, s =>
    match skipWs s with
    | '"' :: r =>
      (match parseStrBody (r.length + 1) r with
       | some (k, r2) =>
         (match skipWs r2 with
          | ':' :: r3 =>
            (match parseVal f r3 with
             | some (v, r4) =>
               (match skipWs r4 with
                | ',' :: r5 =>
                  (match parseMembs f r5 with
                   | some (m, r6) => some (.ocons k v m, r6)
                   | none => none)
                | '}' :: r5 => some (.ocons k v .onil, r5)
                | _ => none)
             | none => none)
          | _ => none)
       | none => none)
    | _ => none

/-- Parse a nonempty element sequence up to and including the closing
bracket. -/
def parseItems : Nat → Str → Option (JArr × Str)
  | 0, _ => none
  | f + 1, s =>
    match parseVal f s with
    | some (v, r) =>
      (match skipWs r with
       | ',' :: r2 =>
         (match parseItems f r2 with
          | some (a, r3) => some (.acons v a, r3)
          | none => none)
       | ']' :: r2 => some (.acons v .anil, r2)
       | _ => none)
    | none => none
end

/-- The whole-text parse json.loads performs: one value, then only
whitespace may remain. The fuel is one more than the text length, which
the round-trip development shows is enough for any serialized document. -/
def loads (s : Str) : Option JVal :=
  match parseVal (s.length + 1) s with
  | some (v, r) => if skipWs r = [] then some v else none
  | none => none

/-- The exception kinds the script can raise: KeyError from a subscript on
a dict missing the key, TypeError from subscripting / membership-testing /
item-assigning / slicing a value of the wrong type, AttributeError from
calling .get on a non-dict, and json.JSONDecodeError from json.load. -/
inductive PyErr : Type where
  | keyError (k : Str) : PyErr
  | typeError : PyErr
  | attributeError : PyErr
  | jsonDecodeError : PyErr

/-- Whether pat occurs at the start of s. -/
def leadsWith : Str → Str → Bool
  | [], _ => true
  | _ :: _, [] => false
  | c :: p, d :: s => c = d && leadsWith p s

/-- Python substring containment pat in s. -/
def strContains : Str → Str → Bool
  | s, pat =>
    leadsWith pat s ||
      (match s with
       | [] => false
       | _ :: r => strContains r pat)

/-- The Python expression k in v for a string k: key membership on a dict,
element equality on a list, substring test on a str, TypeError otherwise
(int, bool and None are not containers). -/
def pyIn (k : Str) (v : JVal) : Except PyErr Bool :=
  match v with
  | .jobj m => .ok (objHas m k)
  | .jarr a => .ok (arrHasStr a k)
  | .jstr s => .ok (strContains s k)
  | _ => .error .typeError

/-- The Python expression v[k] for a string k: dict lookup raising KeyError
on absence; a str or list subscripted by a str, or a non-subscriptable
value, raises TypeError. -/
def pySub (v : JVal) (k : Str) : Except PyErr JVal :=
  match v with
  | .jobj m =>
    (match objGet m k with
     | some w => .ok w
     | none => .error (.keyError k))
  | _ => .error .typeError

/-- The Python expression v.get(k, d): only a dict has the method; any
other value raises AttributeError. -/
def pyGet (v : JVal) (k : Str) (d : JVal) : Except PyErr JVal :=
  match v with
  | .jobj m => .ok ((objGet m k).getD d)
  | _ => .error .attributeError

/-- The Python statement v[k] = w for a string k: dict item assignment;
str, list and scalars raise TypeError. -/
def pySetItem (v : JVal) (k : Str) (w : JVal) : Except PyErr JVal :=
  match v with
  | .jobj m => .ok (.jobj (objSet m k w))
  | _ => .error .typeError

/-- The Python expression v[:n]: a prefix of a str or list; slicing a dict
or a scalar raises TypeError. -/
def pySlice (n : Nat) (v : JVal) : Except PyErr JVal :=
  match v with
  | .jstr s => .ok (.jstr (s.take n))
  | .jarr a => .ok (.jarr (arrTake n a))
  | _ => .error .typeError

/-- The key-display expression of line 39 as applied to a string: the first
n characters followed by the literal ellipsis marker the f-string appends
unconditionally. -/
def truncate (s : Str) (n : Nat) : Str :=
  s.take n ++ ['.', '.', '.']

/-- One console event. Rendering is abstracted: a field line records the
exact value its f-string interpolation evaluated to. -/
inductive Out : Type where
  | line (s : String) : Out
  | field (label : String) (v : JVal) : Out
  | truncField (label : String) (v : JVal) : Out

/-- Computation with console output that may stop at an uncaught Python
exception; the output produced before the exception is retained. -/
def PyM (α : Type) : Type :=
  List Out × Except PyErr α

/-- Pure computation of PyM. -/
def pmPure {α : Type} (a : α) : PyM α :=
  ([], .ok a)

/-- Sequencing of PyM: an exception skips the continuation. -/
def pmBind {α β : Type} (x : PyM α) (f : α → PyM β) : PyM β :=
  match x with
  | (o, .error e) => (o, .error e)
  | (o, .ok a) =>
    (match f a with
     | (o2, r) => (o ++ o2, r))

instance : Monad PyM where
  pure := pmPure
  bind := pmBind

/-- Print one console event. -/
def pout (o : Out) : PyM Unit :=
  ([o], .ok ())

/-- Evaluate a fallible Python expression inside PyM. -/
def plift {α : Type} (x : Except PyErr α) : PyM α :=
  ([], x)

/-- Key literals used by the script. -/
def kAzure : Str := ("azure").data

/-- Key storage. -/
def kStorage : Str := ("storage").data

/-- Key account. -/
def kAccount : Str := ("account").data

/-- Key key. -/
def kKey : Str := ("key").data

/-- Key container. -/
def kContainer : Str := ("container").data

/-- Key created_at. -/
def kCreatedAt : Str := ("created_at").data

/-- Key created_by. -/
def kCreatedBy : Str := ("created_by").data

/-- Key blob_url. -/
def kBlobUrl : Str := ("blob_url").data

/-- Key storage_account. -/
def kStorageAccount : Str := ("storage_account").data

/-- Key python_processed_at. -/
def kPPA : Str := ("python_processed_at").data

/-- Key python_version. -/
def kPV : Str := ("python_version").data

/-- Key python. -/
def kPython : Str := ("python").data

/-- Key packages. -/
def kPackages : Str := ("packages").data

/-- Key features. -/
def kFeatures : Str := ("features").data

/-- Key requests. -/
def kRequests : Str := ("requests").data

/-- Key async_enabled. -/
def kAsync : Str := ("async_enabled").data

/-- The separator line of sixty equals signs. -/
def eq60 : String :=
  String.mk (List.replicate 60 '=')

/-- Lines 33-56 of the script: report the loaded configuration. Each
f-string subscript chain is re-evaluated per line exactly as in the
source; only the guarded azure.storage block and the two membership tests
protect the reads. -/
def readsPhase (config : JVal) : PyM Unit := do
  pout (.line ("📖 Configuration loaded from Bash-created file:"))
  pout (.line (""))
  let b1 ← plift (pyIn kAzure config)
  let cond ← if b1 then do
      let az ← plift (pySub config kAzure)
      plift (pyIn kStorage az)
    else pure false
  if cond then do
    let az ← plift (pySub config kAzure)
    let st ← plift (pySub az kStorage)
    let acct ← plift (pySub st kAccount)
    pout (.field ("  Storage Account") acct)
    let az2 ← plift (pySub config kAzure)
    let st2 ← plift (pySub az2 kStorage)
    let key ← plift (pySub st2 kKey)
    let keyCut ← plift (pySlice 20 key)
    pout (.truncField ("  Storage Key") keyCut)
    let az3 ← plift (pySub config kAzure)
    let st3 ← plift (pySub az3 kStorage)
    let cont ← plift (pySub st3 kContainer)
    pout (.field ("  Container") cont)
  else pure ()
  let ca ← plift (pyGet config kCreatedAt (.jstr (("N/A").data)))
  pout (.field ("  Created At") ca)
  let cb ← plift (pyGet config kCreatedBy (.jstr (("N/A").data)))
  pout (.field ("  Created By") cb)
  pout (.line (""))
  pout (.line eq60)
  pout (.line ("Python Processing Data"))
  pout (.line eq60)
  pout (.line (""))
  let b2 ← plift (pyIn kBlobUrl config)
  if b2 then do
    let bu ← plift (pySub config kBlobUrl)
    pout (.field ("🔗 Would connect to") bu)
    let sa ← plift (pyGet config kStorageAccount (.jstr (("N/A").data)))
    pout (.field ("   Using account") sa)
    pout (.line (""))
  else pure ()

/-- The dotted major.minor.micro string of line 66. -/
def verString (ver : Nat × Nat × Nat) : Str :=
  natRep ver.1 ++ ('.' :: natRep ver.2.1) ++ ('.' :: natRep ver.2.2)

/-- The literal dict assigned to config["python"]["packages"]. -/
def pkgVal : JVal :=
  .jobj (.ocons (("azure-storage-blob").data) (.jstr (("12.19.0").data))
    (.ocons kRequests (.jstr (("2.31.0").data)) .onil))

/-- The literal dict assigned to config["python"]["features"]. -/
def ftVal : JVal :=
  .jobj (.ocons kAsync (.jbool true)
    (.ocons (("retry_count").data) (.jnum 3)
      (.ocons (("timeout_seconds").data) (.jnum 30) .onil)))

/-- Lines 65-81 of the script: add python_processed_at and python_version,
create config["python"] if absent, and assign its packages and features
entries. In-place mutation of the nested dict is rendered by writing the
updated sub-dict back under its key, which preserves both value and
position because json.load never aliases one object at two places. -/
def updatePhase (config : JVal) (now : Str) (ver : Nat × Nat × Nat) :
    Except PyErr JVal := do
  let c1 ← pySetItem config kPPA (.jstr now)
  let c2 ← pySetItem c1 kPV (.jstr (verString ver))
  let b ← pyIn kPython c2
  let c3 ← if b then pure c2 else pySetItem c2 kPython (.jobj .onil)
  let p ← pySub c3 kPython
  let p1 ← pySetItem p kPackages pkgVal
  let c4 ← pySetItem c3 kPython p1
  let p2 ← pySub c4 kPython
  let p3 ← pySetItem p2 kFeatures ftVal
  pySetItem c4 kPython p3

/-- Lines 93-104 of the script: the bidirectional-updates report, whose
f-strings subscript the updated configuration. -/
def finalPrints (config : JVal) : PyM Unit := do
  pout (.line eq60)
  pout (.line ("Bidirectional Updates"))
  pout (.line eq60)
  pout (.line (""))
  pout (.line ("📝 Bash can now read the Python updates:"))
  let pv ← plift (pySub config kPV)
  pout (.field ("   config[python__version]") pv)
  let py ← plift (pySub config kPython)
  let ft ← plift (pySub py kFeatures)
  let ae ← plift (pySub ft kAsync)
  pout (.field ("   config[python__features__async_enabled]") ae)
  let py2 ← plift (pySub config kPython)
  let pk ← plift (pySub py2 kPackages)
  let rq ← plift (pySub pk kRequests)
  pout (.field ("   config[python__packages__requests]") rq)
  pout (.line (""))
  pout (.line ("🔄 This demonstrates true bidirectional configuration sharing!"))
  pout (.line ("   No translation layer, no duplication, just pure JSON."))

/-- The working directory: file paths mapped to file contents. -/
abbrev FS := List (Str × Str)

/-- Content of a file, when it exists. -/
def readFile : FS → Str → Option Str
  | [], _ => none
  | (p, c) :: r, q => if q = p then some c else readFile r q

/-- Create or overwrite a file. -/
def writeFile : FS → Str → Str → FS
  | [], p, c => [(p, c)]
  | (p0, c0) :: r, p, c =>
    if p = p0 then (p0, c) :: r else (p0, c0) :: writeFile r p c

/-- The input path of line 17. -/
def inPath : Str := ("azure_credentials.json").data

/-- The output path of line 84. -/
def outPath : Str := ("azure_credentials.python.json").data

/-- Lines 19-22: the opening banner. -/
def hdrOuts : List Out :=
  [.line eq60, .line ("Python Reading Configuration Created by Bash"),
   .line eq60, .line ("")]

/-- Lines 19-27: the banner followed by the missing-file diagnostic. -/
def missingOuts : List Out :=
  hdrOuts ++
    [.line ("❌ Error: azure_credentials.json not found"),
     .line ("   Run example_usage.sh first to create the configuration")]

/-- Lines 59-62: the updating banner. -/
def updHdrOuts : List Out :=
  [.line eq60, .line ("Python Updating Configuration"), .line eq60, .line ("")]

/-- Lines 88-91: the save confirmation. -/
def savedOuts : List Out :=
  [.line ("💾 Updated configuration saved to azure_credentials.python.json"),
   .line (""), .line ("✅ Python processing complete!"), .line ("")]

/-- One run of the script over a working directory, with the ambient
datetime.now().isoformat() string and sys.version_info triple as inputs.
The result is the final directory, the console transcript, and either the
return value of main (a clean exit) or an uncaught exception (a traceback
and a nonzero process status). -/
def mainRun (fs : FS) (now : Str) (ver : Nat × Nat × Nat) :
    FS × List Out × Except PyErr Nat :=
  match readFile fs inPath with
  | none => (fs, missingOuts, .ok 1)
  | some content =>
    match loads content with
    | none => (fs, hdrOuts, .error .jsonDecodeError)
    | some config =>
      match readsPhase config with
      | (outs1, .error e) => (fs, hdrOuts ++ outs1, .error e)
      | (outs1, .ok _) =>
        match updatePhase config now ver with
        | .error e => (fs, hdrOuts ++ outs1 ++ updHdrOuts, .error e)
        | .ok config2 =>
          let fs2 := writeFile fs outPath (dumps config2)
          match finalPrints config2 with
          | (outs2, .error e) =>
            (fs2, hdrOuts ++ outs1 ++ updHdrOuts ++ savedOuts ++ outs2, .error e)
          | (outs2, .ok _) =>
            (fs2, hdrOuts ++ outs1 ++ updHdrOuts ++ savedOuts ++ outs2, .ok 0)

/-- Whether a suffix may safely follow a serialized numeral without
extending it: it must not begin with a digit, a fraction point or an
exponent letter (in serialized output a numeral is followed by a comma, a
newline or the end of text). -/
def numSafeB : Str → Bool
  | [] => true
  | c :: _ => !(c.isDigit || c = '.' || c = 'e' || c = 'E')

/-- Whether a value is a mapping (a Python dict). -/
def isObjB : JVal → Bool
  | .jobj _ => true
  | _ => false

/-- Top-level field of a document, when the document is an object. -/
def jGetTop (v : JVal) (k : Str) : Option JVal :=
  match v with
  | .jobj m => objGet m k
  | _ => none

/-- Whether a document is an object with the given top-level key. -/
def jHasTop (v : JVal) (k : Str) : Bool :=
  (jGetTop v k).isSome

/-- Round-trip statement for values at fuel f: any serialized well-formed
value followed by a numeral-safe suffix parses back to itself. -/
def PvP (f : Nat) : Prop :=
  ∀ v l rest, vsize v ≤ f → wfV v = true → numSafeB rest = true →
    parseVal f (emitVal l v ++ rest) = some (v, rest)

/-- Round-trip statement for nonempty member sequences at fuel f. -/
def PoP (f : Nat) : Prop :=
  ∀ k v r l m rest, osize (.ocons k v r) ≤ f → wfO (.ocons k v r) = true →
    parseMembs f (emitMembers l k v r ++ ('\n' :: (sp m ++ ('}' :: rest)))) =
      some (.ocons k v r, rest)

/-- Round-trip statement for nonempty element sequences at fuel f. -/
def PaP (f : Nat) : Prop :=
  ∀ v r l m rest, asize (.acons v r) ≤ f → wfA (.acons v r) = true →
    parseItems f (emitItems l v r ++ ('\n' :: (sp m ++ (']' :: rest)))) =
      some (.acons v r, rest)

/-- The end-to-end scenario input text of the specification. -/
def inputC1 : Str :=
  ("\x7b\"azure\":\x7b\"storage\":\x7b\"account\":\"acct1\",\"key\":\"0123456789abcdefghijKEYTAIL\",\"container\":\"c1\"\x7d\x7d,\"created_at\":\"2024-01-01T00:00:00\",\"created_by\":\"bash\"\x7d").data

/-- The azure subtree of the scenario input. -/
def c1Azure : JVal :=
  .jobj (.ocons kStorage
    (.jobj (.ocons kAccount (.jstr (("acct1").data))
      (.ocons kKey (.jstr (("0123456789abcdefghijKEYTAIL").data))
        (.ocons kContainer (.jstr (("c1").data)) .onil)))) .onil)

/-- The scenario input as a document. -/
def c1Doc : JVal :=
  .jobj (.ocons kAzure c1Azure
    (.ocons kCreatedAt (.jstr (("2024-01-01T00:00:00").data))
      (.ocons kCreatedBy (.jstr (("bash").data)) .onil)))

/-- The document the scenario run writes, for a given timestamp string and
interpreter version. -/
def c1Final (now : Str) (ver : Nat × Nat × Nat) : JVal :=
  .jobj (.ocons kAzure c1Azure
    (.ocons kCreatedAt (.jstr (("2024-01-01T00:00:00").data))
      (.ocons kCreatedBy (.jstr (("bash").data))
        (.ocons kPPA (.jstr now)
          (.ocons kPV (.jstr (verString ver))
            (.ocons kPython
              (.jobj (.ocons kPackages pkgVal (.ocons kFeatures ftVal .onil)))
              .onil))))))

/-- A document on which the unguarded read of azure.storage.account raises
KeyError: azure.storage exists but is empty. -/
def c2Doc : JVal :=
  .jobj (.ocons kAzure (.jobj (.ocons kStorage (.jobj .onil) .onil)) .onil)

/-- A document exercising every embedded value constructor, used to
instantiate the round-trip theorem. -/
def c5Doc : JVal :=
  .jobj (.ocons (("s").data) (.jstr (("a\"\\\n\t☃🙂 ok/").data))
    (.ocons (("n").data) (.jnum (-42))
      (.ocons (("b").data) (.jbool false)
        (.ocons (("z").data) .jnull
          (.ocons (("arr").data)
            (.jarr (.acons (.jnum 7) (.acons (.jstr (("x").data))
              (.acons (.jobj .onil) (.acons (.jarr .anil) .anil)))))
            (.ocons (("o").data)
              (.jobj (.ocons (("inner").data) (.jstr (("").data)) .onil))
              .onil))))))

/-- A file content that is not valid JSON. -/
def badJson : Str :=
  ("\x7b").data

/-- A valid input text binding the top-level key python to a string. -/
def c10Text : Str :=
  ("\x7b\"python\": \"x\"\x7d").data

/-- The document c10Text parses to. -/
def c10Doc : JVal :=
  .jobj (.ocons kPython (.jstr (("x").data)) .onil)

theorem skipWs_cons_ws {c : Char} (s : Str) (h : isWsChar c = true) :
    skipWs (c :: s) = skipWs s := by
  simp [skipWs, h]

theorem skipWs_cons_not_ws {c : Char} (s : Str) (h : isWsChar c = false) :
    skipWs (c :: s) = c :: s := by
  simp [skipWs, h]

theorem skipWs_sp (n : Nat) (s : Str) : skipWs (sp n ++ s) = skipWs s := by
  induction n with
  | zero => rfl
  | succ k ih =>
    have h1 : sp (k + 1) ++ s = ' ' :: (sp k ++ s) := by
      simp [sp, List.replicate_succ]
    rw [h1, skipWs_cons_ws _ (by decide), ih]

theorem skipWs_idem (s : Str) : skipWs (skipWs s) = skipWs s := by
  induction s with
  | nil => rfl
  | cons c r ih =>
    cases hc : isWsChar c with
    | true => rw [skipWs_cons_ws _ hc, ih]
    | false => rw [skipWs_cons_not_ws _ hc, skipWs_cons_not_ws _ hc]

theorem digitChar_isDigit {d : Nat} (h : d < 10) : (digitChar d).isDigit = true := by
  interval_cases d <;> decide

theorem digitChar_toNat {d : Nat} (h : d < 10) : (digitChar d).toNat = 48 + d := by
  interval_cases d <;> decide

theorem digitChar_ne_zero {d : Nat} (h : d < 10) (h0 : d ≠ 0) : digitChar d ≠ '0' := by
  interval_cases d
  · exact absurd rfl h0
  all_goals decide

theorem natRep_small {n : Nat} (h : n < 10) : natRep n = [digitChar n] := by
  rw [natRep, dif_pos h]

theorem natRep_large {n : Nat} (h : ¬ n < 10) :
    natRep n = natRep (n / 10) ++ [digitChar (n % 10)] := by
  rw [natRep]
  exact dif_neg h

theorem natRep_head_digit (n : Nat) :
    ∃ c t, natRep n = c :: t ∧ c.isDigit = true := by
  induction n using Nat.strong_induction_on with
  | _ n ih =>
    by_cases h : n < 10
    · exact ⟨digitChar n, [], natRep_small h, digitChar_isDigit h⟩
    · obtain ⟨c, t, hct, hd⟩ := ih (n / 10) (Nat.div_lt_self (by omega) (by omega))
      refine ⟨c, t ++ [digitChar (n % 10)], ?_, hd⟩
      rw [natRep_large h, hct]
      rfl

theorem natRep_head_ne_zero (n : Nat) (hn : 0 < n) :
    ∃ c t, natRep n = c :: t ∧ c.isDigit = true ∧ c ≠ '0' := by
  induction n using Nat.strong_induction_on with
  | _ n ih =>
    by_cases h : n < 10
    · exact ⟨digitChar n, [], natRep_small h, digitChar_isDigit h,
        digitChar_ne_zero h (by omega)⟩
    · obtain ⟨c, t, hct, hd, hz⟩ :=
        ih (n / 10) (Nat.div_lt_self (by omega) (by omega)) (by omega)
      refine ⟨c, t ++ [digitChar (n % 10)], ?_, hd, hz⟩
      rw [natRep_large h, hct]
      rfl

theorem parseDigits_natRep (n : Nat) : ∀ acc rest,
    parseDigits acc (natRep n ++ rest) =
      parseDigits (acc * 10 ^ (natRep n).length + n) rest := by
  induction n using Nat.strong_induction_on with
  | _ n ih =>
    intro acc rest
    by_cases h : n < 10
    · rw [natRep_small h]
      have he : acc * 10 + ((digitChar n).toNat - 48) =
          acc * 10 ^ ([digitChar n]).length + n := by
        rw [digitChar_toNat h]
        have hone : ([digitChar n]).length = 1 := rfl
        rw [hone, pow_one]
        omega
      simp [parseDigits, digitChar_isDigit h, he]
    · have hm : n % 10 < 10 := by omega
      have hlen : (natRep n).length = (natRep (n / 10)).length + 1 := by
        rw [natRep_large h]
        simp
      calc parseDigits acc (natRep n ++ rest)
          = parseDigits acc (natRep (n / 10) ++ (digitChar (n % 10) :: rest)) := by
            rw [natRep_large h, List.append_assoc]
            rfl
        _ = parseDigits (acc * 10 ^ (natRep (n / 10)).length + n / 10)
              (digitChar (n % 10) :: rest) :=
            ih (n / 10) (Nat.div_lt_self (by omega) (by omega)) _ _
        _ = parseDigits ((acc * 10 ^ (natRep (n / 10)).length + n / 10) * 10 +
              ((digitChar (n % 10)).toNat - 48)) rest := by
            simp [parseDigits, digitChar_isDigit hm]
        _ = parseDigits (acc * 10 ^ (natRep n).length + n) rest := by
            congr 1
            rw [digitChar_toNat hm, hlen, pow_succ]
            have h48 : 48 + n % 10 - 48 = n % 10 := by omega
            have h2 : n / 10 * 10 + n % 10 = n := by omega
            rw [h48]
            calc (acc * 10 ^ (natRep (n / 10)).length + n / 10) * 10 + n % 10
                = acc * (10 ^ (natRep (n / 10)).length * 10) +
                    (n / 10 * 10 + n % 10) := by ring
              _ = acc * (10 ^ (natRep (n / 10)).length * 10) + n := by rw [h2]

theorem numSafe_not_digit {c : Char} {r : Str} (h : numSafeB (c :: r) = true) :
    c.isDigit = false := by
  simp [numSafeB] at h
  exact h.1.1.1

theorem numSafe_numTail {rest : Str} (h : numSafeB rest = true) :
    numTail rest = false := by
  cases rest with
  | nil => rfl
  | cons c r =>
    simp [numSafeB] at h
    obtain ⟨⟨⟨_, h1⟩, h2⟩, h3⟩ := h
    simp [numTail, h1, h2, h3]

theorem parseDigits_stop (acc : Nat) {rest : Str} (h : numSafeB rest = true) :
    parseDigits acc rest = (acc, rest) := by
  cases rest with
  | nil => rfl
  | cons c r => simp [parseDigits, numSafe_not_digit h]

theorem parseUNum_natRep (n : Nat) {rest : Str} (h : numSafeB rest = true) :
    parseUNum (natRep n ++ rest) = some (n, rest) := by
  have ht := numSafe_numTail h
  by_cases h0 : n = 0
  · subst h0
    have hz : natRep 0 = ['0'] := by rw [natRep_small (by omega)]; rfl
    rw [hz]
    simp [parseUNum, ht]
  · by_cases h10 : n < 10
    · rw [natRep_small h10]
      have hne := digitChar_ne_zero h10 h0
      have hdig := digitChar_isDigit h10
      have hpd : parseDigits 0 (digitChar n :: rest) = (n, rest) := by
        have : digitChar n :: rest = natRep n ++ rest := by
          rw [natRep_small h10]; rfl
        rw [this, parseDigits_natRep, parseDigits_stop _ h]
        congr 1
        simp
      simp [parseUNum, hne, hdig, hpd, ht]
    · obtain ⟨c, t, hct, hd, hz⟩ := natRep_head_ne_zero n (by omega)
      have hsplit : natRep n ++ rest = c :: (t ++ rest) := by rw [hct]; rfl
      rw [hsplit]
      have hpd : parseDigits 0 (c :: (t ++ rest)) = (n, rest) := by
        rw [← hsplit, parseDigits_natRep, parseDigits_stop _ h]
        congr 1
        simp
      simp [parseUNum, hz, hd, hpd, ht]

theorem parseNum_intRep (i : Int) {rest : Str} (h : numSafeB rest = true) :
    parseNum (intRep i ++ rest) = some (i, rest) := by
  by_cases hi : i < 0
  · have hsplit : intRep i ++ rest = '-' :: (natRep i.natAbs ++ rest) := by
      simp [intRep, hi]
    have habs : -(|i| : Int) = i := by
      rw [abs_of_neg hi]
      ring
    have hneg : -((i.natAbs : Nat) : Int) = i := by omega
    rw [hsplit]
    simp [parseNum, parseUNum_natRep i.natAbs h, hneg, habs]
  · have hrep : intRep i ++ rest = natRep i.toNat ++ rest := by
      simp [intRep, hi]
    obtain ⟨c, t, hct, hd⟩ := natRep_head_digit i.toNat
    have hsplit : natRep i.toNat ++ rest = c :: (t ++ rest) := by rw [hct]; rfl
    have hnm : c ≠ '-' := by
      intro heq
      rw [heq] at hd
      exact absurd hd (by decide)
    rw [hrep, hsplit]
    have hun : parseUNum (c :: (t ++ rest)) = some (i.toNat, rest) := by
      rw [← hsplit]
      exact parseUNum_natRep i.toNat h
    have hpos : ((i.toNat : Nat) : Int) = i := by omega
    simp [parseNum, hnm, hun, hpos]

theorem hexVal_hexDigit {d : Nat} (h : d < 16) : hexVal (hexDigit d) = some d := by
  interval_cases d <;> decide

theorem hexVal4_hex4 {n : Nat} (h : n < 65536) :
    hexVal4 (hexDigit (n / 4096 % 16)) (hexDigit (n / 256 % 16))
      (hexDigit (n / 16 % 16)) (hexDigit (n % 16)) = some n := by
  have h1 := hexVal_hexDigit (show n / 4096 % 16 < 16 by omega)
  have h2 := hexVal_hexDigit (show n / 256 % 16 < 16 by omega)
  have h3 := hexVal_hexDigit (show n / 16 % 16 < 16 by omega)
  have h4 := hexVal_hexDigit (show n % 16 < 16 by omega)
  simp [hexVal4, h1, h2, h3, h4]
  omega

theorem mkChar_toNat (c : Char) : mkChar c.toNat = some c := by
  have h : c.toNat.isValidChar := c.valid
  unfold mkChar
  rw [if_pos h, Char.ofNat_toNat]

theorem char_valid_nat (c : Char) :
    c.toNat < 55296 ∨ (57343 < c.toNat ∧ c.toNat < 1114112) := c.valid

theorem strStep_backslash (r : Str) : strStep ('\\' :: r) = escStep r := by
  simp +decide [strStep]

theorem strStep_raw {c : Char} (r : Str) (h1 : ¬c = '"') (h2 : ¬c = '\\')
    (h3 : 32 ≤ c.toNat) : strStep (c :: r) = .chr c r := by
  simp [strStep, h1, h2, h3]

theorem escStep_u (r : Str) : escStep ('u' :: r) = uEsc r := by
  simp [escStep]

theorem escStep_simple {e ch : Char} (r : Str) (he : ¬e = 'u')
    (hd : escDecode e = some ch) : escStep (e :: r) = .chr ch r := by
  simp [escStep, he, hd]

theorem hexEsc_hex4 {n : Nat} (h : n < 65536) (r : Str) :
    hexEsc (hex4 n ++ r) = some (n, r) := by
  simp [hexEsc, hex4, hexVal4_hex4 h]

theorem uEsc_val {r r3 : Str} {n : Nat} {ch : Char}
    (hx : hexEsc r = some (n, r3)) (hns : ¬(55296 ≤ n ∧ n ≤ 56319))
    (hc : mkChar n = some ch) : uEsc r = .chr ch r3 := by
  simp [uEsc, hx, hns, hc]

theorem uEsc_pair {r r3 : Str} {n : Nat}
    (hx : hexEsc r = some (n, r3)) (hs : 55296 ≤ n ∧ n ≤ 56319) :
    uEsc r = pairEsc n r3 := by
  simp [uEsc, hx, hs]

theorem pairEsc_val {r r4 : Str} {n m : Nat} {ch : Char}
    (hx : hexEsc r = some (m, r4)) (hm : 56320 ≤ m ∧ m ≤ 57343)
    (hc : mkChar (65536 + (n - 55296) * 1024 + (m - 56320)) = some ch) :
    pairEsc n ('\\' :: 'u' :: r) = .chr ch r4 := by
  simp +decide [pairEsc, hx, hm, hc]

theorem strStep_escChar (c : Char) (tail : Str) :
    strStep (escChar c ++ tail) = .chr c tail := by
  by_cases h1 : c = '"'
  · subst h1
    have hesc : escChar '"' = ['\\', '"'] := by decide
    rw [hesc]
    simp only [List.cons_append, List.nil_append]
    rw [strStep_backslash, escStep_simple tail (by decide)
      (show escDecode '"' = some ('"') from by decide)]
  · by_cases h2 : c = '\\'
    · subst h2
      have hesc : escChar '\\' = ['\\', '\\'] := by decide
      rw [hesc]
      simp only [List.cons_append, List.nil_append]
      rw [strStep_backslash, escStep_simple tail (by decide)
      (show escDecode '\\' = some ('\\') from by decide)]
    · by_cases h3 : c = Char.ofNat 8
      · subst h3
        have hesc : escChar (Char.ofNat 8) = ['\\', 'b'] := by decide
        rw [hesc]
        simp only [List.cons_append, List.nil_append]
        rw [strStep_backslash, escStep_simple tail (by decide)
      (show escDecode 'b' = some (Char.ofNat 8) from by decide)]
      · by_cases h4 : c = Char.ofNat 9
        · subst h4
          have hesc : escChar (Char.ofNat 9) = ['\\', 't'] := by decide
          rw [hesc]
          simp only [List.cons_append, List.nil_append]
          rw [strStep_backslash, escStep_simple tail (by decide)
      (show escDecode 't' = some (Char.ofNat 9) from by decide)]
        · by_cases h5 : c = Char.ofNat 10
          · subst h5
            have hesc : escChar (Char.ofNat 10) = ['\\', 'n'] := by decide
            rw [hesc]
            simp only [List.cons_append, List.nil_append]
            rw [strStep_backslash, escStep_simple tail (by decide)
      (show escDecode 'n' = some (Char.ofNat 10) from by decide)]
          · by_cases h6 : c = Char.ofNat 12
            · subst h6
              have hesc : escChar (Char.ofNat 12) = ['\\', 'f'] := by decide
              rw [hesc]
              simp only [List.cons_append, List.nil_append]
              rw [strStep_backslash, escStep_simple tail (by decide)
      (show escDecode 'f' = some (Char.ofNat 12) from by decide)]
            · by_cases h7 : c = Char.ofNat 13
              · subst h7
                have hesc : escChar (Char.ofNat 13) = ['\\', 'r'] := by decide
                rw [hesc]
                simp only [List.cons_append, List.nil_append]
                rw [strStep_backslash, escStep_simple tail (by decide)
      (show escDecode 'r' = some (Char.ofNat 13) from by decide)]
              · by_cases h8 : 32 ≤ c.toNat ∧ c.toNat ≤ 126
                · have hesc : escChar c = [c] := by
                    simp [escChar, h1, h2, h3, h4, h5, h6, h7, h8]
                  rw [hesc, List.singleton_append, strStep_raw _ h1 h2 h8.1]
                · by_cases h9 : c.toNat < 65536
                  · have hsurr : ¬(55296 ≤ c.toNat ∧ c.toNat ≤ 56319) := by
                      rcases char_valid_nat c with hv | hv <;> omega
                    have hesc : escChar c = '\\' :: 'u' :: hex4 c.toNat := by
                      simp [escChar, h1, h2, h3, h4, h5, h6, h7, h8, h9]
                    rw [hesc]
                    simp only [List.cons_append]
                    rw [strStep_backslash, escStep_u,
                      uEsc_val (hexEsc_hex4 h9 tail) hsurr (mkChar_toNat c)]
                  · have hbig : 65536 ≤ c.toNat ∧ c.toNat < 1114112 := by
                      rcases char_valid_nat c with hv | hv <;> omega
                    have hesc : escChar c =
                        ('\\' :: 'u' :: hex4 (55296 + (c.toNat - 65536) / 1024)) ++
                        ('\\' :: 'u' :: hex4 (56320 + (c.toNat - 65536) % 1024)) := by
                      simp [escChar, h1, h2, h3, h4, h5, h6, h7, h8, h9]
                    have hhi : 55296 + (c.toNat - 65536) / 1024 < 65536 := by omega
                    have hlo : 56320 + (c.toNat - 65536) % 1024 < 65536 := by omega
                    have hhiS : 55296 ≤ 55296 + (c.toNat - 65536) / 1024 ∧
                        55296 + (c.toNat - 65536) / 1024 ≤ 56319 := by omega
                    have hloS : 56320 ≤ 56320 + (c.toNat - 65536) % 1024 ∧
                        56320 + (c.toNat - 65536) % 1024 ≤ 57343 := by omega
                    have hc : mkChar (65536 +
                        (55296 + (c.toNat - 65536) / 1024 - 55296) * 1024 +
                        (56320 + (c.toNat - 65536) % 1024 - 56320)) = some c := by
                      have he : 65536 +
                          (55296 + (c.toNat - 65536) / 1024 - 55296) * 1024 +
                          (56320 + (c.toNat - 65536) % 1024 - 56320) = c.toNat := by
                        omega
                      rw [he]
                      exact mkChar_toNat c
                    rw [hesc]
                    simp only [List.cons_append, List.append_assoc]
                    rw [strStep_backslash, escStep_u,
                      uEsc_pair (hexEsc_hex4 hhi _) hhiS,
                      pairEsc_val (hexEsc_hex4 hlo tail) hloS hc]

theorem escChar_length_pos (c : Char) : 0 < (escChar c).length := by
  unfold escChar
  repeat' split
  all_goals simp [hex4]

theorem escStr_length (s : Str) : s.length ≤ (escStr s).length := by
  induction s with
  | nil => simp [escStr]
  | cons c s ih =>
    have := escChar_length_pos c
    simp [escStr]
    omega

theorem parseStrBody_escStr : ∀ (s rest : Str) (f : Nat), s.length < f →
    parseStrBody f (escStr s ++ ('"' :: rest)) = some (s, rest) := by
  intro s
  induction s with
  | nil =>
    intro rest f hf
    obtain ⟨g, rfl⟩ : ∃ g, f = g + 1 := ⟨f - 1, by omega⟩
    have hq : strStep ('"' :: rest) = .done rest := by
      simp [strStep]
    show parseStrBody (g + 1) ('"' :: rest) = some ([], rest)
    simp [parseStrBody, hq]
  | cons c s ih =>
    intro rest f hf
    obtain ⟨g, rfl⟩ : ∃ g, f = g + 1 := ⟨f - 1, by omega⟩
    have hs : s.length < g := by
      simp at hf
      omega
    have hb := ih rest g hs
    have hstep := strStep_escChar c (escStr s ++ ('"' :: rest))
    show parseStrBody (g + 1) ((escChar c ++ escStr s) ++ ('"' :: rest)) =
      some (c :: s, rest)
    rw [List.append_assoc]
    simp [parseStrBody, hstep, hb]

theorem objGet_set_self : ∀ (m : JObj) (k : Str) (v : JVal),
    objGet (objSet m k v) k = some v
  | .onil, k, v => by simp [objSet, objGet]
  | .ocons k0 v0 r, k, v => by
    by_cases h : k = k0
    · simp [objSet, h, objGet]
    · simp [objSet, h, objGet]
      exact objGet_set_self r k v

theorem objGet_set_ne : ∀ (m : JObj) (k k2 : Str) (v : JVal), ¬k2 = k →
    objGet (objSet m k v) k2 = objGet m k2
  | .onil, k, k2, v, h => by simp [objSet, objGet, h]
  | .ocons k0 v0 r, k, k2, v, h => by
    by_cases h0 : k = k0
    · subst h0
      simp [objSet, objGet, h]
    · simp [objSet, h0, objGet]
      by_cases h2 : k2 = k0
      · simp [h2]
      · simp [h2]
        exact objGet_set_ne r k k2 v h

theorem objSet_get_eq : ∀ (m : JObj) (k : Str) (v : JVal),
    objGet m k = some v → objSet m k v = m
  | .onil, k, v, h => by simp [objGet] at h
  | .ocons k0 v0 r, k, v, h => by
    by_cases h0 : k = k0
    · subst h0
      simp [objGet] at h
      simp [objSet, h]
    · simp [objGet, h0] at h
      simp [objSet, h0, objSet_get_eq r k v h]

theorem objHas_set_self (m : JObj) (k : Str) (v : JVal) :
    objHas (objSet m k v) k = true := by
  simp [objHas, objGet_set_self]

theorem objHas_set_ne (m : JObj) (k k2 : Str) (v : JVal) (h : ¬k2 = k) :
    objHas (objSet m k v) k2 = objHas m k2 := by
  simp [objHas, objGet_set_ne m k k2 v h]

theorem objAppend_onil : ∀ (a : JObj), objAppend a .onil = a
  | .onil => rfl
  | .ocons k v r => by simp [objAppend, objAppend_onil r]

theorem objAppend_assoc : ∀ (a b c : JObj),
    objAppend (objAppend a b) c = objAppend a (objAppend b c)
  | .onil, b, c => rfl
  | .ocons k v r, b, c => by simp [objAppend, objAppend_assoc r b c]

theorem objGet_append : ∀ (a b : JObj) (k : Str),
    objGet (objAppend a b) k =
      (match objGet a k with
       | some v => some v
       | none => objGet b k)
  | .onil, b, k => by simp [objAppend, objGet]
  | .ocons k0 v0 r, b, k => by
    by_cases h : k = k0
    · simp [objAppend, objGet, h]
    · simp [objAppend, objGet, h]
      exact objGet_append r b k

theorem objHas_append (a b : JObj) (k : Str) :
    objHas (objAppend a b) k = (objHas a k || objHas b k) := by
  simp [objHas, objGet_append]
  cases objGet a k <;> simp

theorem objHas_cons_self (k : Str) (v : JVal) (r : JObj) :
    objHas (.ocons k v r) k = true := by
  simp [objHas, objGet]

theorem objHas_cons_tail (k k2 : Str) (v : JVal) (r : JObj)
    (h : objHas r k2 = true) : objHas (.ocons k v r) k2 = true := by
  by_cases h2 : k2 = k
  · simp [objHas, objGet, h2]
  · simp [objHas, objGet, h2]
    simpa [objHas] using h

theorem objSet_fresh : ∀ (m : JObj) (k : Str) (v : JVal),
    objHas m k = false → objSet m k v = objAppend m (.ocons k v .onil)
  | .onil, k, v, _ => rfl
  | .ocons k0 v0 r, k, v, h => by
    have h0 : ¬k = k0 := by
      intro he
      rw [he] at h
      rw [objHas_cons_self] at h
      exact absurd h (by simp)
    have hr : objHas r k = false := by
      by_cases hh : objHas r k = true
      · rw [objHas_cons_tail k0 k v0 r hh] at h
        exact absurd h (by simp)
      · simpa using hh
    simp [objSet, h0, objAppend, objSet_fresh r k v hr]

theorem wfO_cons {k : Str} {v : JVal} {r : JObj} (h : wfO (.ocons k v r) = true) :
    objHas r k = false ∧ wfV v = true ∧ wfO r = true := by
  simp [wfO] at h
  exact ⟨by simpa using h.1.1, h.1.2, h.2⟩

theorem objSetAll_disjoint : ∀ (m acc : JObj), wfO m = true →
    (∀ k2, objHas m k2 = true → objHas acc k2 = false) →
    objSetAll acc m = objAppend acc m
  | .onil, acc, _, _ => by simp [objSetAll, objAppend_onil]
  | .ocons k v r, acc, hm, hd => by
    obtain ⟨hk, _, hr⟩ := wfO_cons hm
    have hacc : objHas acc k = false := hd k (objHas_cons_self k v r)
    have hset : objSet acc k v = objAppend acc (.ocons k v .onil) :=
      objSet_fresh acc k v hacc
    have hd2 : ∀ k2, objHas r k2 = true →
        objHas (objAppend acc (.ocons k v .onil)) k2 = false := by
      intro k2 h2
      have hne : ¬k2 = k := by
        intro he
        rw [he] at h2
        rw [h2] at hk
        exact absurd hk (by simp)
      rw [objHas_append]
      have ha : objHas acc k2 = false := hd k2 (objHas_cons_tail k k2 v r h2)
      have hb : objHas (JObj.ocons k v .onil) k2 = false := by
        simp [objHas, objGet, hne]
      simp [ha, hb]
    calc objSetAll acc (.ocons k v r)
        = objSetAll (objAppend acc (.ocons k v .onil)) r := by
          simp [objSetAll, hset]
      _ = objAppend (objAppend acc (.ocons k v .onil)) r :=
          objSetAll_disjoint r _ hr hd2
      _ = objAppend acc (.ocons k v r) := by
          rw [objAppend_assoc]
          rfl

theorem objFromPairs_self (m : JObj) (hm : wfO m = true) : objFromPairs m = m := by
  unfold objFromPairs
  rw [objSetAll_disjoint m .onil hm (fun k2 _ => rfl)]
  rfl

theorem parseVal_null (f : Nat) {s r2 : Str}
    (h : skipWs s = 'n' :: 'u' :: 'l' :: 'l' :: r2) :
    parseVal (f + 1) s = some (.jnull, r2) := by
  simp +decide [parseVal, h]

theorem parseVal_true (f : Nat) {s r2 : Str}
    (h : skipWs s = 't' :: 'r' :: 'u' :: 'e' :: r2) :
    parseVal (f + 1) s = some (.jbool true, r2) := by
  simp +decide [parseVal, h]

theorem parseVal_false (f : Nat) {s r2 : Str}
    (h : skipWs s = 'f' :: 'a' :: 'l' :: 's' :: 'e' :: r2) :
    parseVal (f + 1) s = some (.jbool false, r2) := by
  simp +decide [parseVal, h]

theorem parseVal_str (f : Nat) {s r r2 s1 : Str}
    (h : skipWs s = '"' :: r)
    (hb : parseStrBody (r.length + 1) r = some (s1, r2)) :
    parseVal (f + 1) s = some (.jstr s1, r2) := by
  simp +decide [parseVal, h, hb]

theorem parseVal_num (f : Nat) {s r r2 : Str} {c : Char} {i : Int}
    (h : skipWs s = c :: r)
    (h1 : ¬c = '{') (h2 : ¬c = '[') (h3 : ¬c = '"')
    (h4 : ¬c = 't') (h5 : ¬c = 'f') (h6 : ¬c = 'n')
    (hn : parseNum (c :: r) = some (i, r2)) :
    parseVal (f + 1) s = some (.jnum i, r2) := by
  simp [parseVal, h, h1, h2, h3, h4, h5, h6, hn]

theorem parseVal_obj_empty (f : Nat) {s r r2 : Str}
    (h : skipWs s = '{' :: r) (h2 : skipWs r = '}' :: r2) :
    parseVal (f + 1) s = some (.jobj .onil, r2) := by
  simp [parseVal, h, h2]

theorem parseVal_obj (f : Nat) {s r r0 r2 : Str} {c0 : Char} {pairs : JObj}
    (h : skipWs s = '{' :: r) (h0 : skipWs r = c0 :: r0) (hne : ¬c0 = '}')
    (hm : parseMembs f (c0 :: r0) = some (pairs, r2)) :
    parseVal (f + 1) s = some (.jobj (objFromPairs pairs), r2) := by
  simp [parseVal, h, h0, hne, hm]

theorem parseVal_arr_empty (f : Nat) {s r r2 : Str}
    (h : skipWs s = '[' :: r) (h2 : skipWs r = ']' :: r2) :
    parseVal (f + 1) s = some (.jarr .anil, r2) := by
  simp +decide [parseVal, h, h2]

theorem parseVal_arr (f : Nat) {s r r0 r2 : Str} {c0 : Char} {a : JArr}
    (h : skipWs s = '[' :: r) (h0 : skipWs r = c0 :: r0) (hne : ¬c0 = ']')
    (hm : parseItems f (c0 :: r0) = some (a, r2)) :
    parseVal (f + 1) s = some (.jarr a, r2) := by
  simp +decide [parseVal, h, h0, hne, hm]

theorem parseMembs_last (f : Nat) {s r r2 r3 r4 r5 k : Str} {v : JVal}
    (h : skipWs s = '"' :: r)
    (hk : parseStrBody (r.length + 1) r = some (k, r2))
    (h2 : skipWs r2 = ':' :: r3)
    (hv : parseVal f r3 = some (v, r4))
    (h3 : skipWs r4 = '}' :: r5) :
    parseMembs (f + 1) s = some (.ocons k v .onil, r5) := by
  simp +decide [parseMembs, h, hk, h2, hv, h3]

theorem parseMembs_cons (f : Nat) {s r r2 r3 r4 r5 r6 k : Str} {v : JVal}
    {m : JObj}
    (h : skipWs s = '"' :: r)
    (hk : parseStrBody (r.length + 1) r = some (k, r2))
    (h2 : skipWs r2 = ':' :: r3)
    (hv : parseVal f r3 = some (v, r4))
    (h3 : skipWs r4 = ',' :: r5)
    (hm : parseMembs f r5 = some (m, r6)) :
    parseMembs (f + 1) s = some (.ocons k v m, r6) := by
  simp +decide [parseMembs, h, hk, h2, hv, h3, hm]

theorem parseItems_last (f : Nat) {s r r2 : Str} {v : JVal}
    (hv : parseVal f s = some (v, r)) (h2 : skipWs r = ']' :: r2) :
    parseItems (f + 1) s = some (.acons v .anil, r2) := by
  simp +decide [parseItems, hv, h2]

theorem parseItems_cons (f : Nat) {s r r2 r3 : Str} {v : JVal} {a : JArr}
    (hv : parseVal f s = some (v, r)) (h2 : skipWs r = ',' :: r2)
    (hi : parseItems f r2 = some (a, r3)) :
    parseItems (f + 1) s = some (.acons v a, r3) := by
  simp +decide [parseItems, hv, h2, hi]

theorem not_ws_of_digit {c : Char} (h : c.isDigit = true) : isWsChar c = false := by
  by_cases h1 : c = ' '
  · rw [h1] at h
    exact absurd h (by decide)
  · by_cases h2 : c = '\t'
    · rw [h2] at h
      exact absurd h (by decide)
    · by_cases h3 : c = '\n'
      · rw [h3] at h
        exact absurd h (by decide)
      · by_cases h4 : c = '\r'
        · rw [h4] at h
          exact absurd h (by decide)
        · simp [isWsChar, h1, h2, h3, h4]

theorem digit_not_special {c : Char} (h : c.isDigit = true) :
    ¬c = '{' ∧ ¬c = '[' ∧ ¬c = '"' ∧ ¬c = 't' ∧ ¬c = 'f' ∧ ¬c = 'n' := by
  refine ⟨?_, ?_, ?_, ?_, ?_, ?_⟩ <;> intro he <;> rw [he] at h <;>
    exact absurd h (by decide)

theorem parseVal_congr : ∀ (f : Nat) {s1 s2 : Str}, skipWs s1 = skipWs s2 →
    parseVal f s1 = parseVal f s2
  | 0, _, _, _ => rfl
  | f + 1, s1, s2, h => by
    simp only [parseVal]
    rw [h]

theorem parseMembs_congr : ∀ (f : Nat) {s1 s2 : Str}, skipWs s1 = skipWs s2 →
    parseMembs f s1 = parseMembs f s2
  | 0, _, _, _ => rfl
  | f + 1, s1, s2, h => by
    simp only [parseMembs]
    rw [h]

theorem parseItems_congr : ∀ (f : Nat) {s1 s2 : Str}, skipWs s1 = skipWs s2 →
    parseItems f s1 = parseItems f s2
  | 0, _, _, _ => rfl
  | f + 1, s1, s2, h => by
    simp only [parseItems]
    rw [parseVal_congr f h]

theorem vsize_pos (v : JVal) : 1 ≤ vsize v := by
  cases v <;> simp [vsize]

theorem osize_pos (m : JObj) : 1 ≤ osize m := by
  cases m <;> simp [osize]
  have := vsize_pos
  omega

theorem asize_pos (a : JArr) : 1 ≤ asize a := by
  cases a <;> simp [asize]
  omega

theorem numSafe_nil : numSafeB [] = true := rfl

theorem numSafe_comma (r : Str) : numSafeB (',' :: r) = true := by
  simp +decide [numSafeB]

theorem numSafe_newline (r : Str) : numSafeB ('\n' :: r) = true := by
  simp +decide [numSafeB]

theorem emit_head (v : JVal) (l : Nat) :
    ∃ c t, emitVal l v = c :: t ∧ isWsChar c = false ∧ ¬c = ']' := by
  cases v with
  | jnull => exact ⟨'n', ['u', 'l', 'l'], by simp [emitVal], by decide, by decide⟩
  | jbool b =>
    cases b with
    | true => exact ⟨'t', ['r', 'u', 'e'], by simp [emitVal], by decide, by decide⟩
    | false =>
      exact ⟨'f', ['a', 'l', 's', 'e'], by simp [emitVal], by decide, by decide⟩
  | jnum i =>
    by_cases hi : i < 0
    · refine ⟨'-', natRep i.natAbs, ?_, by decide, by decide⟩
      simp [emitVal, intRep, hi]
    · obtain ⟨c, t, hct, hd⟩ := natRep_head_digit i.toNat
      refine ⟨c, t, ?_, not_ws_of_digit hd, ?_⟩
      · simp [emitVal, intRep, hi, hct]
      · intro he
        rw [he] at hd
        exact absurd hd (by decide)
  | jstr s =>
    exact ⟨'"', escStr s ++ ['"'], by simp [emitVal, emitStr], by decide, by decide⟩
  | jobj m =>
    cases m with
    | onil => exact ⟨'{', ['}'], by simp [emitVal], by decide, by decide⟩
    | ocons k v r =>
      exact ⟨'{', '\n' :: (emitMembers (l + 1) k v r ++ ('\n' :: (sp (2 * l) ++ ['}']))),
        by simp [emitVal], by decide, by decide⟩
  | jarr a =>
    cases a with
    | anil => exact ⟨'[', [']'], by simp [emitVal], by decide, by decide⟩
    | acons v r =>
      exact ⟨'[', '\n' :: (emitItems (l + 1) v r ++ ('\n' :: (sp (2 * l) ++ [']']))),
        by simp [emitVal], by decide, by decide⟩

theorem wfV_jobj {m : JObj} (h : wfV (.jobj m) = true) : wfO m = true := by
  simpa [wfV] using h

theorem wfV_jarr {a : JArr} (h : wfV (.jarr a) = true) : wfA a = true := by
  simpa [wfV] using h

theorem wfA_cons {v : JVal} {r : JArr} (h : wfA (.acons v r) = true) :
    wfV v = true ∧ wfA r = true := by
  simpa [wfA] using h

theorem skipWs_emitMembers_nil (l : Nat) (k : Str) (v : JVal) (tail : Str) :
    skipWs (emitMembers l k v .onil ++ tail) =
      '"' :: (escStr k ++ ('"' :: (':' :: (' ' :: (emitVal l v ++ tail))))) := by
  have he : emitMembers l k v .onil =
      sp (2 * l) ++ (emitStr k ++ (':' :: ' ' :: (emitVal l v ++ []))) := by
    simp [emitMembers]
  rw [he]
  simp only [List.append_nil, emitStr, List.append_assoc, List.cons_append]
  rw [skipWs_sp, skipWs_cons_not_ws _ (by decide)]
  simp

theorem skipWs_emitMembers_cons (l : Nat) (k : Str) (v : JVal) (k1 : Str)
    (v1 : JVal) (r1 : JObj) (tail : Str) :
    skipWs (emitMembers l k v (.ocons k1 v1 r1) ++ tail) =
      '"' :: (escStr k ++ ('"' :: (':' :: (' ' ::
        (emitVal l v ++ (',' :: ('\n' :: (emitMembers l k1 v1 r1 ++ tail)))))))) := by
  have he : emitMembers l k v (.ocons k1 v1 r1) =
      sp (2 * l) ++ (emitStr k ++ (':' :: ' ' ::
        (emitVal l v ++ (',' :: '\n' :: emitMembers l k1 v1 r1)))) := by
    simp [emitMembers]
  rw [he]
  simp only [emitStr, List.append_assoc, List.cons_append]
  rw [skipWs_sp, skipWs_cons_not_ws _ (by decide)]
  simp

theorem skipWs_emitItems_nil (l : Nat) (v : JVal) (tail : Str) :
    skipWs (emitItems l v .anil ++ tail) = skipWs (emitVal l v ++ tail) := by
  have he : emitItems l v .anil = sp (2 * l) ++ (emitVal l v ++ []) := by
    simp [emitItems]
  rw [he]
  simp only [List.append_nil, List.append_assoc]
  rw [skipWs_sp]

theorem skipWs_emitItems_cons (l : Nat) (v : JVal) (v1 : JVal) (r1 : JArr)
    (tail : Str) :
    skipWs (emitItems l v (.acons v1 r1) ++ tail) =
      skipWs (emitVal l v ++ (',' :: ('\n' :: (emitItems l v1 r1 ++ tail)))) := by
  have he : emitItems l v (.acons v1 r1) =
      sp (2 * l) ++ (emitVal l v ++ (',' :: '\n' :: emitItems l v1 r1)) := by
    simp [emitItems]
  rw [he]
  simp only [List.append_assoc, List.cons_append]
  rw [skipWs_sp]

theorem skipWs_emitMembers_head (l : Nat) (k : Str) (v : JVal) (r : JObj)
    (tail : Str) :
    ∃ R, skipWs (emitMembers l k v r ++ tail) = '"' :: R := by
  cases r with
  | onil => exact ⟨_, skipWs_emitMembers_nil l k v tail⟩
  | ocons k1 v1 r1 => exact ⟨_, skipWs_emitMembers_cons l k v k1 v1 r1 tail⟩

theorem skipWs_emitItems_head (l : Nat) (v : JVal) (r : JArr) (tail : Str) :
    ∃ c0 R0, skipWs (emitItems l v r ++ tail) = c0 :: R0 ∧
      isWsChar c0 = false ∧ ¬c0 = ']' := by
  obtain ⟨c0, t0, hc0, hw, hne⟩ := emit_head v l
  cases r with
  | anil =>
    refine ⟨c0, t0 ++ tail, ?_, hw, hne⟩
    rw [skipWs_emitItems_nil l v tail, hc0]
    rw [show (c0 :: t0) ++ tail = c0 :: (t0 ++ tail) from by simp]
    exact skipWs_cons_not_ws _ hw
  | acons v1 r1 =>
    refine ⟨c0, t0 ++ (',' :: ('\n' :: (emitItems l v1 r1 ++ tail))), ?_, hw, hne⟩
    rw [skipWs_emitItems_cons l v v1 r1 tail, hc0]
    rw [show (c0 :: t0) ++ (',' :: ('\n' :: (emitItems l v1 r1 ++ tail))) =
      c0 :: (t0 ++ (',' :: ('\n' :: (emitItems l v1 r1 ++ tail)))) from by simp]
    exact skipWs_cons_not_ws _ hw

theorem roundtrip_fuel : ∀ f : Nat, PvP f ∧ PoP f ∧ PaP f := by
  intro f
  induction f with
  | zero =>
    refine ⟨?_, ?_, ?_⟩
    · intro v l rest hs _ _
      have := vsize_pos v
      omega
    · intro k v r l m rest hs _
      exfalso
      have h1 := vsize_pos v
      have h2 := osize_pos r
      have h3 : osize (.ocons k v r) = 1 + vsize v + osize r := by simp [osize]
      omega
    · intro v r l m rest hs _
      exfalso
      have h1 := vsize_pos v
      have h2 := asize_pos r
      have h3 : asize (.acons v r) = 1 + vsize v + asize r := by simp [asize]
      omega
  | succ f ih =>
    obtain ⟨ihv, iho, iha⟩ := ih
    refine ⟨?_, ?_, ?_⟩
    · intro v l rest hs hwf hns
      cases v with
      | jnull =>
        have he : emitVal l JVal.jnull = ['n', 'u', 'l', 'l'] := by simp [emitVal]
        rw [he]
        have h1 : skipWs ((['n', 'u', 'l', 'l'] : Str) ++ rest) =
            'n' :: 'u' :: 'l' :: 'l' :: rest := by
          rw [show (['n', 'u', 'l', 'l'] : Str) ++ rest =
            'n' :: 'u' :: 'l' :: 'l' :: rest from by simp]
          exact skipWs_cons_not_ws _ (by decide)
        exact parseVal_null f h1
      | jbool b =>
        cases b with
        | true =>
          have he : emitVal l (JVal.jbool true) = ['t', 'r', 'u', 'e'] := by
            simp [emitVal]
          rw [he]
          have h1 : skipWs ((['t', 'r', 'u', 'e'] : Str) ++ rest) =
              't' :: 'r' :: 'u' :: 'e' :: rest := by
            rw [show (['t', 'r', 'u', 'e'] : Str) ++ rest =
              't' :: 'r' :: 'u' :: 'e' :: rest from by simp]
            exact skipWs_cons_not_ws _ (by decide)
          exact parseVal_true f h1
        | false =>
          have he : emitVal l (JVal.jbool false) = ['f', 'a', 'l', 's', 'e'] := by
            simp [emitVal]
          rw [he]
          have h1 : skipWs ((['f', 'a', 'l', 's', 'e'] : Str) ++ rest) =
              'f' :: 'a' :: 'l' :: 's' :: 'e' :: rest := by
            rw [show (['f', 'a', 'l', 's', 'e'] : Str) ++ rest =
              'f' :: 'a' :: 'l' :: 's' :: 'e' :: rest from by simp]
            exact skipWs_cons_not_ws _ (by decide)
          exact parseVal_false f h1
      | jnum i =>
        have he : emitVal l (JVal.jnum i) = intRep i := by simp [emitVal]
        rw [he]
        by_cases hi : i < 0
        · have hrep : intRep i = '-' :: natRep i.natAbs := by simp [intRep, hi]
          have hca : intRep i ++ rest = '-' :: (natRep i.natAbs ++ rest) := by
            rw [hrep]
            simp
          have h1 : skipWs (intRep i ++ rest) = '-' :: (natRep i.natAbs ++ rest) := by
            rw [hca]
            exact skipWs_cons_not_ws _ (by decide)
          have hn : parseNum ('-' :: (natRep i.natAbs ++ rest)) = some (i, rest) := by
            rw [← hca]
            exact parseNum_intRep i hns
          exact parseVal_num f h1 (by decide) (by decide) (by decide) (by decide)
            (by decide) (by decide) hn
        · obtain ⟨c, t, hct, hd⟩ := natRep_head_digit i.toNat
          have hrep : intRep i = c :: t := by simp [intRep, hi, hct]
          obtain ⟨n1, n2, n3, n4, n5, n6⟩ := digit_not_special hd
          have hca : intRep i ++ rest = c :: (t ++ rest) := by
            rw [hrep]
            simp
          have h1 : skipWs (intRep i ++ rest) = c :: (t ++ rest) := by
            rw [hca]
            exact skipWs_cons_not_ws _ (not_ws_of_digit hd)
          have hn : parseNum (c :: (t ++ rest)) = some (i, rest) := by
            rw [← hca]
            exact parseNum_intRep i hns
          have hgoal := parseVal_num f h1 n1 n2 n3 n4 n5 n6 hn
          rw [hca]
          rw [← hca]
          exact hgoal
      | jstr s1 =>
        have he : emitVal l (JVal.jstr s1) = '"' :: (escStr s1 ++ ['"']) := by
          simp [emitVal, emitStr]
        rw [he]
        have hca : ('"' :: (escStr s1 ++ ['"'])) ++ rest =
            '"' :: (escStr s1 ++ ('"' :: rest)) := by simp
        rw [hca]
        have h1 : skipWs ('"' :: (escStr s1 ++ ('"' :: rest))) =
            '"' :: (escStr s1 ++ ('"' :: rest)) :=
          skipWs_cons_not_ws _ (by decide)
        have hlen : s1.length < (escStr s1 ++ ('"' :: rest)).length + 1 := by
          have := escStr_length s1
          simp [List.length_append]
          omega
        exact parseVal_str f h1 (parseStrBody_escStr s1 rest _ hlen)
      | jobj m =>
        cases m with
        | onil =>
          have he : emitVal l (JVal.jobj .onil) = ['{', '}'] := by simp [emitVal]
          rw [he]
          have hca : (['{', '}'] : Str) ++ rest = '{' :: ('}' :: rest) := by simp
          rw [hca]
          have h1 : skipWs ('{' :: ('}' :: rest)) = '{' :: ('}' :: rest) :=
            skipWs_cons_not_ws _ (by decide)
          have h2 : skipWs ('}' :: rest) = '}' :: rest :=
            skipWs_cons_not_ws _ (by decide)
          exact parseVal_obj_empty f h1 h2
        | ocons k v r =>
          have hwfO : wfO (.ocons k v r) = true := wfV_jobj hwf
          have hsz : osize (.ocons k v r) ≤ f := by
            have hv2 : vsize (JVal.jobj (.ocons k v r)) =
                1 + osize (.ocons k v r) := by simp [vsize]
            omega
          have he : emitVal l (JVal.jobj (.ocons k v r)) =
              '{' :: ('\n' :: (emitMembers (l + 1) k v r ++
                ('\n' :: (sp (2 * l) ++ ['}'])))) := by
            simp [emitVal]
          rw [he]
          have hca : ('{' :: ('\n' :: (emitMembers (l + 1) k v r ++
              ('\n' :: (sp (2 * l) ++ ['}']))))) ++ rest =
              '{' :: ('\n' :: (emitMembers (l + 1) k v r ++
              ('\n' :: (sp (2 * l) ++ ('}' :: rest))))) := by
            simp
          rw [hca]
          have h1 : skipWs ('{' :: ('\n' :: (emitMembers (l + 1) k v r ++
              ('\n' :: (sp (2 * l) ++ ('}' :: rest)))))) =
              '{' :: ('\n' :: (emitMembers (l + 1) k v r ++
              ('\n' :: (sp (2 * l) ++ ('}' :: rest))))) :=
            skipWs_cons_not_ws _ (by decide)
          obtain ⟨R0, hR0⟩ := skipWs_emitMembers_head (l + 1) k v r
            ('\n' :: (sp (2 * l) ++ ('}' :: rest)))
          have h0 : skipWs ('\n' :: (emitMembers (l + 1) k v r ++
              ('\n' :: (sp (2 * l) ++ ('}' :: rest))))) = '"' :: R0 := by
            rw [skipWs_cons_ws _ (by decide), hR0]
          have hmem := iho k v r (l + 1) (2 * l) rest hsz hwfO
          have hm : parseMembs f ('"' :: R0) = some (.ocons k v r, rest) := by
            rw [parseMembs_congr f (show skipWs ('"' :: R0) =
              skipWs (emitMembers (l + 1) k v r ++
                ('\n' :: (sp (2 * l) ++ ('}' :: rest)))) from by
              rw [skipWs_cons_not_ws _ (by decide), hR0])]
            exact hmem
          have hres := parseVal_obj f h1 h0 (by decide) hm
          rw [objFromPairs_self _ hwfO] at hres
          exact hres
      | jarr a =>
        cases a with
        | anil =>
          have he : emitVal l (JVal.jarr .anil) = ['[', ']'] := by simp [emitVal]
          rw [he]
          have hca : (['[', ']'] : Str) ++ rest = '[' :: (']' :: rest) := by simp
          rw [hca]
          have h1 : skipWs ('[' :: (']' :: rest)) = '[' :: (']' :: rest) :=
            skipWs_cons_not_ws _ (by decide)
          have h2 : skipWs (']' :: rest) = ']' :: rest :=
            skipWs_cons_not_ws _ (by decide)
          exact parseVal_arr_empty f h1 h2
        | acons v r =>
          have hwfA : wfA (.acons v r) = true := wfV_jarr hwf
          have hsz : asize (.acons v r) ≤ f := by
            have hv2 : vsize (JVal.jarr (.acons v r)) =
                1 + asize (.acons v r) := by simp [vsize]
            omega
          have he : emitVal l (JVal.jarr (.acons v r)) =
              '[' :: ('\n' :: (emitItems (l + 1) v r ++
                ('\n' :: (sp (2 * l) ++ [']'])))) := by
            simp [emitVal]
          rw [he]
          have hca : ('[' :: ('\n' :: (emitItems (l + 1) v r ++
              ('\n' :: (sp (2 * l) ++ [']']))))) ++ rest =
              '[' :: ('\n' :: (emitItems (l + 1) v r ++
              ('\n' :: (sp (2 * l) ++ (']' :: rest))))) := by
            simp
          rw [hca]
          have h1 : skipWs ('[' :: ('\n' :: (emitItems (l + 1) v r ++
              ('\n' :: (sp (2 * l) ++ (']' :: rest)))))) =
              '[' :: ('\n' :: (emitItems (l + 1) v r ++
              ('\n' :: (sp (2 * l) ++ (']' :: rest))))) :=
            skipWs_cons_not_ws _ (by decide)
          obtain ⟨c0, R0, hR0, hcw, hcne⟩ := skipWs_emitItems_head (l + 1) v r
            ('\n' :: (sp (2 * l) ++ (']' :: rest)))
          have h0 : skipWs ('\n' :: (emitItems (l + 1) v r ++
              ('\n' :: (sp (2 * l) ++ (']' :: rest))))) = c0 :: R0 := by
            rw [skipWs_cons_ws _ (by decide), hR0]
          have hm : parseItems f (c0 :: R0) = some (.acons v r, rest) := by
            rw [parseItems_congr f (show skipWs (c0 :: R0) =
              skipWs (emitItems (l + 1) v r ++
                ('\n' :: (sp (2 * l) ++ (']' :: rest)))) from by
              rw [skipWs_cons_not_ws _ hcw, hR0])]
            exact iha v r (l + 1) (2 * l) rest hsz hwfA
          exact parseVal_arr f h1 h0 hcne hm
    · intro k v r l m rest hsz hwf
      obtain ⟨hknotin, hwfv, hwfr⟩ := wfO_cons hwf
      have hsze : osize (.ocons k v r) = 1 + vsize v + osize r := by simp [osize]
      have hszv : vsize v ≤ f := by
        have := osize_pos r
        omega
      have hszr : osize r ≤ f := by
        have := vsize_pos v
        omega
      cases r with
      | onil =>
        have h := skipWs_emitMembers_nil l k v ('\n' :: (sp m ++ ('}' :: rest)))
        have hk : parseStrBody ((escStr k ++ ('"' :: (':' :: (' ' :: (emitVal l v ++ ('\n' :: (sp m ++ ('}' :: rest)))))))).length + 1) (escStr k ++ ('"' :: (':' :: (' ' :: (emitVal l v ++ ('\n' :: (sp m ++ ('}' :: rest)))))))) =
            some (k, (':' :: (' ' :: (emitVal l v ++ ('\n' :: (sp m ++ ('}' :: rest))))))) := by
          apply parseStrBody_escStr
          have := escStr_length k
          simp [List.length_append]
          omega
        have h2 : skipWs (':' :: (' ' :: (emitVal l v ++
            ('\n' :: (sp m ++ ('}' :: rest)))))) =
            ':' :: (' ' :: (emitVal l v ++ ('\n' :: (sp m ++ ('}' :: rest))))) :=
          skipWs_cons_not_ws _ (by decide)
        have hv : parseVal f (' ' :: (emitVal l v ++
            ('\n' :: (sp m ++ ('}' :: rest))))) =
            some (v, '\n' :: (sp m ++ ('}' :: rest))) := by
          rw [parseVal_congr f (skipWs_cons_ws (emitVal l v ++
            ('\n' :: (sp m ++ ('}' :: rest)))) (by decide))]
          exact ihv v l ('\n' :: (sp m ++ ('}' :: rest))) hszv hwfv
            (numSafe_newline _)
        have h3 : skipWs ('\n' :: (sp m ++ ('}' :: rest))) = '}' :: rest := by
          rw [skipWs_cons_ws _ (by decide), skipWs_sp,
            skipWs_cons_not_ws _ (by decide)]
        exact parseMembs_last f h hk h2 hv h3
      | ocons k1 v1 r1 =>
        have h := skipWs_emitMembers_cons l k v k1 v1 r1
          ('\n' :: (sp m ++ ('}' :: rest)))
        have hk : parseStrBody ((escStr k ++ ('"' :: (':' :: (' ' :: (emitVal l v ++ (',' :: ('\n' :: (emitMembers l k1 v1 r1 ++ ('\n' :: (sp m ++ ('}' :: rest))))))))))).length + 1) (escStr k ++ ('"' :: (':' :: (' ' :: (emitVal l v ++ (',' :: ('\n' :: (emitMembers l k1 v1 r1 ++ ('\n' :: (sp m ++ ('}' :: rest))))))))))) =
            some (k, (':' :: (' ' :: (emitVal l v ++ (',' :: ('\n' :: (emitMembers l k1 v1 r1 ++ ('\n' :: (sp m ++ ('}' :: rest)))))))))) := by
          apply parseStrBody_escStr
          have := escStr_length k
          simp [List.length_append]
          omega
        have h2 : skipWs (':' :: (' ' :: (emitVal l v ++ (',' :: ('\n' ::
            (emitMembers l k1 v1 r1 ++ ('\n' :: (sp m ++ ('}' :: rest))))))))) =
            ':' :: (' ' :: (emitVal l v ++ (',' :: ('\n' ::
            (emitMembers l k1 v1 r1 ++ ('\n' :: (sp m ++ ('}' :: rest)))))))) :=
          skipWs_cons_not_ws _ (by decide)
        have hv : parseVal f (' ' :: (emitVal l v ++ (',' :: ('\n' ::
            (emitMembers l k1 v1 r1 ++ ('\n' :: (sp m ++ ('}' :: rest)))))))) =
            some (v, ',' :: ('\n' :: (emitMembers l k1 v1 r1 ++
              ('\n' :: (sp m ++ ('}' :: rest)))))) := by
          rw [parseVal_congr f (skipWs_cons_ws (emitVal l v ++ (',' :: ('\n' ::
            (emitMembers l k1 v1 r1 ++ ('\n' :: (sp m ++ ('}' :: rest)))))))
            (by decide))]
          exact ihv v l (',' :: ('\n' :: (emitMembers l k1 v1 r1 ++
            ('\n' :: (sp m ++ ('}' :: rest)))))) hszv hwfv (numSafe_comma _)
        have h3 : skipWs (',' :: ('\n' :: (emitMembers l k1 v1 r1 ++
            ('\n' :: (sp m ++ ('}' :: rest)))))) =
            ',' :: ('\n' :: (emitMembers l k1 v1 r1 ++
            ('\n' :: (sp m ++ ('}' :: rest))))) :=
          skipWs_cons_not_ws _ (by decide)
        have hm2 : parseMembs f ('\n' :: (emitMembers l k1 v1 r1 ++
            ('\n' :: (sp m ++ ('}' :: rest))))) =
            some (.ocons k1 v1 r1, rest) := by
          rw [parseMembs_congr f (skipWs_cons_ws (emitMembers l k1 v1 r1 ++
            ('\n' :: (sp m ++ ('}' :: rest)))) (by decide))]
          exact iho k1 v1 r1 l m rest hszr hwfr
        exact parseMembs_cons f h hk h2 hv h3 hm2
    · intro v r l m rest hsz hwf
      obtain ⟨hwfv, hwfr⟩ := wfA_cons hwf
      have hsze : asize (.acons v r) = 1 + vsize v + asize r := by simp [asize]
      have hszv : vsize v ≤ f := by
        have := asize_pos r
        omega
      have hszr : asize r ≤ f := by
        have := vsize_pos v
        omega
      cases r with
      | anil =>
        have hv : parseVal f (emitItems l v .anil ++
            ('\n' :: (sp m ++ (']' :: rest)))) =
            some (v, '\n' :: (sp m ++ (']' :: rest))) := by
          rw [parseVal_congr f (skipWs_emitItems_nil l v
            ('\n' :: (sp m ++ (']' :: rest))))]
          exact ihv v l ('\n' :: (sp m ++ (']' :: rest))) hszv hwfv
            (numSafe_newline _)
        have h2 : skipWs ('\n' :: (sp m ++ (']' :: rest))) = ']' :: rest := by
          rw [skipWs_cons_ws _ (by decide), skipWs_sp,
            skipWs_cons_not_ws _ (by decide)]
        exact parseItems_last f hv h2
      | acons v1 r1 =>
        have hv : parseVal f (emitItems l v (.acons v1 r1) ++
            ('\n' :: (sp m ++ (']' :: rest)))) =
            some (v, ',' :: ('\n' :: (emitItems l v1 r1 ++
              ('\n' :: (sp m ++ (']' :: rest)))))) := by
          rw [parseVal_congr f (skipWs_emitItems_cons l v v1 r1
            ('\n' :: (sp m ++ (']' :: rest))))]
          exact ihv v l (',' :: ('\n' :: (emitItems l v1 r1 ++
            ('\n' :: (sp m ++ (']' :: rest)))))) hszv hwfv (numSafe_comma _)
        have h2 : skipWs (',' :: ('\n' :: (emitItems l v1 r1 ++
            ('\n' :: (sp m ++ (']' :: rest)))))) =
            ',' :: ('\n' :: (emitItems l v1 r1 ++
            ('\n' :: (sp m ++ (']' :: rest))))) :=
          skipWs_cons_not_ws _ (by decide)
        have hi2 : parseItems f ('\n' :: (emitItems l v1 r1 ++
            ('\n' :: (sp m ++ (']' :: rest))))) =
            some (.acons v1 r1, rest) := by
          rw [parseItems_congr f (skipWs_cons_ws (emitItems l v1 r1 ++
            ('\n' :: (sp m ++ (']' :: rest)))) (by decide))]
          exact iha v1 r1 l m rest hszr hwfr
        exact parseItems_cons f hv h2 hi2

theorem vsize_le_emit : ∀ f : Nat,
    (∀ (v : JVal) (l : Nat), vsize v ≤ f → vsize v ≤ (emitVal l v).length) ∧
    (∀ (k : Str) (v : JVal) (r : JObj) (l : Nat), osize (.ocons k v r) ≤ f →
      osize (.ocons k v r) ≤ (emitMembers l k v r).length + 2) ∧
    (∀ (v : JVal) (r : JArr) (l : Nat), asize (.acons v r) ≤ f →
      asize (.acons v r) ≤ (emitItems l v r).length + 2) := by
  intro f
  induction f with
  | zero =>
    refine ⟨?_, ?_, ?_⟩
    · intro v l hs
      have := vsize_pos v
      omega
    · intro k v r l hs
      exfalso
      have h1 := vsize_pos v
      have h2 := osize_pos r
      have h3 : osize (.ocons k v r) = 1 + vsize v + osize r := by simp [osize]
      omega
    · intro v r l hs
      exfalso
      have h1 := vsize_pos v
      have h2 := asize_pos r
      have h3 : asize (.acons v r) = 1 + vsize v + asize r := by simp [asize]
      omega
  | succ f ih =>
    obtain ⟨ihv, iho, iha⟩ := ih
    refine ⟨?_, ?_, ?_⟩
    · intro v l hs
      cases v with
      | jnull =>
        have he : emitVal l JVal.jnull = ['n', 'u', 'l', 'l'] := by simp [emitVal]
        simp [he, vsize]
      | jbool b =>
        cases b with
        | true =>
          have he : emitVal l (JVal.jbool true) = ['t', 'r', 'u', 'e'] := by
            simp [emitVal]
          simp [he, vsize]
        | false =>
          have he : emitVal l (JVal.jbool false) = ['f', 'a', 'l', 's', 'e'] := by
            simp [emitVal]
          simp [he, vsize]
      | jnum i =>
        have he : emitVal l (JVal.jnum i) = intRep i := by simp [emitVal]
        have hv : vsize (JVal.jnum i) = 1 := by simp [vsize]
        rw [he, hv]
        by_cases hi : i < 0
        · simp [intRep, hi]
        · obtain ⟨c, t, hct, _⟩ := natRep_head_digit i.toNat
          simp [intRep, hi, hct]
      | jstr s1 =>
        have he : emitVal l (JVal.jstr s1) = '"' :: (escStr s1 ++ ['"']) := by
          simp [emitVal, emitStr]
        have hv : vsize (JVal.jstr s1) = 1 := by simp [vsize]
        rw [he, hv]
        simp
      | jobj m =>
        cases m with
        | onil =>
          have he : emitVal l (JVal.jobj .onil) = ['{', '}'] := by simp [emitVal]
          have hv : vsize (JVal.jobj .onil) = 2 := by simp [vsize, osize]
          rw [he, hv]
          simp
        | ocons k v r =>
          have he : emitVal l (JVal.jobj (.ocons k v r)) =
              '{' :: ('\n' :: (emitMembers (l + 1) k v r ++
                ('\n' :: (sp (2 * l) ++ ['}'])))) := by
            simp [emitVal]
          have hv : vsize (JVal.jobj (.ocons k v r)) =
              1 + osize (.ocons k v r) := by simp [vsize]
          have hb : osize (.ocons k v r) ≤ f := by omega
          have hm := iho k v r (l + 1) hb
          rw [he, hv]
          simp [List.length_append]
          omega
      | jarr a =>
        cases a with
        | anil =>
          have he : emitVal l (JVal.jarr .anil) = ['[', ']'] := by simp [emitVal]
          have hv : vsize (JVal.jarr .anil) = 2 := by simp [vsize, asize]
          rw [he, hv]
          simp
        | acons v r =>
          have he : emitVal l (JVal.jarr (.acons v r)) =
              '[' :: ('\n' :: (emitItems (l + 1) v r ++
                ('\n' :: (sp (2 * l) ++ [']'])))) := by
            simp [emitVal]
          have hv : vsize (JVal.jarr (.acons v r)) =
              1 + asize (.acons v r) := by simp [vsize]
          have hb : asize (.acons v r) ≤ f := by omega
          have hm := iha v r (l + 1) hb
          rw [he, hv]
          simp [List.length_append]
          omega
    · intro k v r l hs
      have hsze : osize (.ocons k v r) = 1 + vsize v + osize r := by simp [osize]
      have hszv : vsize v ≤ f := by
        have := osize_pos r
        omega
      have hv := ihv v l hszv
      cases r with
      | onil =>
        have he : emitMembers l k v .onil =
            sp (2 * l) ++ (emitStr k ++ (':' :: ' ' :: (emitVal l v ++ []))) := by
          simp [emitMembers]
        rw [he, hsze]
        have ho : osize JObj.onil = 1 := by simp [osize]
        rw [ho]
        simp [List.length_append, emitStr, sp]
        omega
      | ocons k1 v1 r1 =>
        have hszr : osize (.ocons k1 v1 r1) ≤ f := by
          have := vsize_pos v
          omega
        have hm := iho k1 v1 r1 l hszr
        have he : emitMembers l k v (.ocons k1 v1 r1) =
            sp (2 * l) ++ (emitStr k ++ (':' :: ' ' ::
              (emitVal l v ++ (',' :: '\n' :: emitMembers l k1 v1 r1)))) := by
          simp [emitMembers]
        rw [he, hsze]
        simp [List.length_append, emitStr, sp]
        omega
    · intro v r l hs
      have hsze : asize (.acons v r) = 1 + vsize v + asize r := by simp [asize]
      have hszv : vsize v ≤ f := by
        have := asize_pos r
        omega
      have hv := ihv v l hszv
      cases r with
      | anil =>
        have he : emitItems l v .anil = sp (2 * l) ++ (emitVal l v ++ []) := by
          simp [emitItems]
        rw [he, hsze]
        have ha : asize JArr.anil = 1 := by simp [asize]
        rw [ha]
        simp [List.length_append, sp]
        omega
      | acons v1 r1 =>
        have hszr : asize (.acons v1 r1) ≤ f := by
          have := vsize_pos v
          omega
        have hm := iha v1 r1 l hszr
        have he : emitItems l v (.acons v1 r1) =
            sp (2 * l) ++ (emitVal l v ++ (',' :: '\n' :: emitItems l v1 r1)) := by
          simp [emitItems]
        rw [he, hsze]
        simp [List.length_append, sp]
        omega

theorem loads_dumps (v : JVal) (hwf : wfV v = true) : loads (dumps v) = some v := by
  have hd : dumps v = emitVal 0 v := rfl
  have hle : vsize v ≤ (emitVal 0 v).length :=
    (vsize_le_emit (vsize v)).1 v 0 (Nat.le_refl _)
  have hfuel : vsize v ≤ (dumps v).length + 1 := by
    rw [hd]
    omega
  have hrt := (roundtrip_fuel ((dumps v).length + 1)).1 v 0 [] hfuel hwf numSafe_nil
  rw [List.append_nil] at hrt
  unfold loads
  rw [hd] at hrt ⊢
  rw [hrt]
  simp [skipWs]

theorem except_bind_def {α β : Type} (x : Except PyErr α) (f : α → Except PyErr β) :
    x >>= f = Except.bind x f := rfl

theorem except_pure_def {α : Type} (a : α) : (pure a : Except PyErr α) = .ok a := rfl

theorem pym_bind_def {α β : Type} (x : PyM α) (f : α → PyM β) :
    x >>= f = pmBind x f := rfl

theorem pym_pure_def {α : Type} (a : α) : (pure a : PyM α) = pmPure a := rfl

theorem objSet_objSet : ∀ (m : JObj) (k : Str) (v w : JVal),
    objSet (objSet m k v) k w = objSet m k w
  | .onil, k, v, w => by simp [objSet]
  | .ocons k0 v0 r, k, v, w => by
    by_cases h : k = k0
    · simp [objSet, h]
    · simp [objSet, h]
      exact objSet_objSet r k v w

theorem readFile_write_ne : ∀ (fs : FS) (p q c : Str), ¬p = q →
    readFile (writeFile fs q c) p = readFile fs p
  | [], p, q, c, h => by simp [writeFile, readFile, h]
  | (p0, c0) :: r, p, q, c, h => by
    by_cases hq : q = p0
    · subst hq
      simp [writeFile, readFile, h]
    · by_cases hp : p = p0
      · simp [writeFile, hq, readFile, hp]
      · simp [writeFile, hq, readFile, hp]
        exact readFile_write_ne r p q c h

theorem updatePhase_nonobj (v : JVal) (now : Str) (ver : Nat × Nat × Nat)
    (hv : isObjB v = false) : updatePhase v now ver = .error .typeError := by
  cases v with
  | jobj m => simp [isObjB] at hv
  | jnull => simp [updatePhase, except_bind_def, Except.bind, pySetItem]
  | jbool b => simp [updatePhase, except_bind_def, Except.bind, pySetItem]
  | jnum n => simp [updatePhase, except_bind_def, Except.bind, pySetItem]
  | jstr s => simp [updatePhase, except_bind_def, Except.bind, pySetItem]
  | jarr a => simp [updatePhase, except_bind_def, Except.bind, pySetItem]

theorem updatePhase_none (m : JObj) (now : Str) (ver : Nat × Nat × Nat)
    (hp : objGet m kPython = none) :
    updatePhase (.jobj m) now ver = .ok (.jobj (objSet
      (objSet (objSet m kPPA (.jstr now)) kPV (.jstr (verString ver)))
      kPython (.jobj (.ocons kPackages pkgVal (.ocons kFeatures ftVal .onil))))) := by
  have hne1 : ¬kPython = kPPA := by decide
  have hne2 : ¬kPython = kPV := by decide
  have hne3 : ¬kFeatures = kPackages := by decide
  have hget : objGet (objSet (objSet m kPPA (.jstr now)) kPV
      (.jstr (verString ver))) kPython = none := by
    rw [objGet_set_ne _ _ _ _ hne2, objGet_set_ne _ _ _ _ hne1, hp]
  simp [updatePhase, except_bind_def, except_pure_def, Except.bind, pySetItem,
    pyIn, pySub, objHas, hget, objGet_set_self, objSet_objSet, objSet, hne3]

theorem updatePhase_obj (m : JObj) (now : Str) (ver : Nat × Nat × Nat) (P : JObj)
    (hp : objGet m kPython = some (.jobj P)) :
    updatePhase (.jobj m) now ver = .ok (.jobj (objSet
      (objSet (objSet m kPPA (.jstr now)) kPV (.jstr (verString ver)))
      kPython (.jobj (objSet (objSet P kPackages pkgVal) kFeatures ftVal)))) := by
  have hne1 : ¬kPython = kPPA := by decide
  have hne2 : ¬kPython = kPV := by decide
  have hget : objGet (objSet (objSet m kPPA (.jstr now)) kPV
      (.jstr (verString ver))) kPython = some (.jobj P) := by
    rw [objGet_set_ne _ _ _ _ hne2, objGet_set_ne _ _ _ _ hne1, hp]
  simp [updatePhase, except_bind_def, except_pure_def, Except.bind, pySetItem,
    pyIn, pySub, objHas, hget, objGet_set_self, objSet_objSet]

theorem updatePhase_bad (m : JObj) (now : Str) (ver : Nat × Nat × Nat) (p : JVal)
    (hp : objGet m kPython = some p) (hno : isObjB p = false) :
    updatePhase (.jobj m) now ver = .error .typeError := by
  have hne1 : ¬kPython = kPPA := by decide
  have hne2 : ¬kPython = kPV := by decide
  have hget : objGet (objSet (objSet m kPPA (.jstr now)) kPV
      (.jstr (verString ver))) kPython = some p := by
    rw [objGet_set_ne _ _ _ _ hne2, objGet_set_ne _ _ _ _ hne1, hp]
  cases p with
  | jobj P => simp [isObjB] at hno
  | jnull =>
    simp [updatePhase, except_bind_def, except_pure_def, Except.bind, pySetItem,
      pyIn, pySub, objHas, hget]
  | jbool b =>
    simp [updatePhase, except_bind_def, except_pure_def, Except.bind, pySetItem,
      pyIn, pySub, objHas, hget]
  | jnum n =>
    simp [updatePhase, except_bind_def, except_pure_def, Except.bind, pySetItem,
      pyIn, pySub, objHas, hget]
  | jstr s =>
    simp [updatePhase, except_bind_def, except_pure_def, Except.bind, pySetItem,
      pyIn, pySub, objHas, hget]
  | jarr a =>
    simp [updatePhase, except_bind_def, except_pure_def, Except.bind, pySetItem,
      pyIn, pySub, objHas, hget]

theorem updatePhase_fix (M : JObj) (now : Str) (ver : Nat × Nat × Nat) (P2 : JObj)
    (hpy : objGet M kPython = some (.jobj P2))
    (hppa : objGet M kPPA = some (.jstr now))
    (hpv : objGet M kPV = some (.jstr (verString ver)))
    (hpkg : objGet P2 kPackages = some pkgVal)
    (hft : objGet P2 kFeatures = some ftVal) :
    updatePhase (.jobj M) now ver = .ok (.jobj M) := by
  rw [updatePhase_obj M now ver P2 hpy,
    objSet_get_eq M kPPA _ hppa, objSet_get_eq M kPV _ hpv,
    objSet_get_eq P2 kPackages _ hpkg, objSet_get_eq P2 kFeatures _ hft,
    objSet_get_eq M kPython _ hpy]

theorem readsPhase_ok (m : JObj)
    (hsafe : objGet m kAzure = none ∨
      (∃ a, objGet m kAzure = some (.jobj a) ∧
        (objGet a kStorage = none ∨
          (∃ s, objGet a kStorage = some (.jobj s) ∧
            (∃ x, objGet s kAccount = some x) ∧
            (∃ ks, objGet s kKey = some (.jstr ks)) ∧
            (∃ y, objGet s kContainer = some y))))) :
    (readsPhase (.jobj m)).2 = Except.ok () := by
  rcases hsafe with h1 | ⟨a, ha, h2⟩
  · have hb1 : objHas m kAzure = false := by simp [objHas, h1]
    cases hb : objGet m kBlobUrl with
    | none =>
      have hbu : objHas m kBlobUrl = false := by simp [objHas, hb]
      simp [readsPhase, pym_bind_def, pym_pure_def, pmBind, pmPure, pout, plift,
        pyIn, pyGet, hb1, hbu]
    | some v =>
      have hbu : objHas m kBlobUrl = true := by simp [objHas, hb]
      simp [readsPhase, pym_bind_def, pym_pure_def, pmBind, pmPure, pout, plift,
        pyIn, pyGet, pySub, hb1, hbu, hb]
  · rcases h2 with h2 | ⟨s, hs, ⟨x, hx⟩, ⟨ks, hk⟩, ⟨y, hy⟩⟩
    · have hb1 : objHas m kAzure = true := by simp [objHas, ha]
      have hb2 : objHas a kStorage = false := by simp [objHas, h2]
      cases hb : objGet m kBlobUrl with
      | none =>
        have hbu : objHas m kBlobUrl = false := by simp [objHas, hb]
        simp [readsPhase, pym_bind_def, pym_pure_def, pmBind, pmPure, pout, plift,
          pyIn, pyGet, pySub, hb1, hb2, ha, hbu]
      | some v =>
        have hbu : objHas m kBlobUrl = true := by simp [objHas, hb]
        simp [readsPhase, pym_bind_def, pym_pure_def, pmBind, pmPure, pout, plift,
          pyIn, pyGet, pySub, hb1, hb2, ha, hbu, hb]
    · have hb1 : objHas m kAzure = true := by simp [objHas, ha]
      have hb2 : objHas a kStorage = true := by simp [objHas, hs]
      cases hb : objGet m kBlobUrl with
      | none =>
        have hbu : objHas m kBlobUrl = false := by simp [objHas, hb]
        simp [readsPhase, pym_bind_def, pym_pure_def, pmBind, pmPure, pout, plift,
          pyIn, pyGet, pySub, pySlice, hb1, hb2, ha, hs, hx, hk, hy, hbu]
      | some v =>
        have hbu : objHas m kBlobUrl = true := by simp [objHas, hb]
        simp [readsPhase, pym_bind_def, pym_pure_def, pmBind, pmPure, pout, plift,
          pyIn, pyGet, pySub, pySlice, hb1, hb2, ha, hs, hx, hk, hy, hbu, hb]

theorem readsPhase_nonobj (v : JVal) (hv : isObjB v = false) :
    ∃ e, (readsPhase v).2 = Except.error e := by
  cases v with
  | jobj m => simp [isObjB] at hv
  | jnull =>
    exact ⟨.typeError, by
      simp [readsPhase, pym_bind_def, pym_pure_def, pmBind, pmPure, pout, plift,
        pyIn]⟩
  | jbool b =>
    exact ⟨.typeError, by
      simp [readsPhase, pym_bind_def, pym_pure_def, pmBind, pmPure, pout, plift,
        pyIn]⟩
  | jnum n =>
    exact ⟨.typeError, by
      simp [readsPhase, pym_bind_def, pym_pure_def, pmBind, pmPure, pout, plift,
        pyIn]⟩
  | jstr s =>
    cases hc : strContains s kAzure with
    | true =>
      exact ⟨.typeError, by
        simp [readsPhase, pym_bind_def, pym_pure_def, pmBind, pmPure, pout, plift,
          pyIn, pySub, hc]⟩
    | false =>
      exact ⟨.attributeError, by
        simp [readsPhase, pym_bind_def, pym_pure_def, pmBind, pmPure, pout, plift,
          pyIn, pySub, pyGet, hc]⟩
  | jarr a =>
    cases hc : arrHasStr a kAzure with
    | true =>
      exact ⟨.typeError, by
        simp [readsPhase, pym_bind_def, pym_pure_def, pmBind, pmPure, pout, plift,
          pyIn, pySub, hc]⟩
    | false =>
      exact ⟨.attributeError, by
        simp [readsPhase, pym_bind_def, pym_pure_def, pmBind, pmPure, pout, plift,
          pyIn, pySub, pyGet, hc]⟩

set_option maxRecDepth 20000 in
/-- C1: running the tool on the end-to-end scenario input produces exit
status 0 and an output file azure_credentials.python.json whose text is the
serialization of a document that parses back to itself and contains every
key of the original document with its original value plus
python_processed_at, python_version, python.packages.requests equal to
"2.31.0" and python.features.async_enabled equal to true, for every ambient
timestamp and interpreter version. -/
theorem claim_C1 (now : Str) (ver : Nat × Nat × Nat) :
    (mainRun [(inPath, inputC1)] now ver).2.2 = Except.ok 0 ∧
    readFile (mainRun [(inPath, inputC1)] now ver).1 outPath =
      some (dumps (c1Final now ver)) ∧
    loads (dumps (c1Final now ver)) = some (c1Final now ver) ∧
    loads inputC1 = some c1Doc ∧
    jGetTop (c1Final now ver) kAzure = jGetTop c1Doc kAzure ∧
    jGetTop (c1Final now ver) kCreatedAt = jGetTop c1Doc kCreatedAt ∧
    jGetTop (c1Final now ver) kCreatedBy = jGetTop c1Doc kCreatedBy ∧
    jGetTop (c1Final now ver) kPPA = some (.jstr now) ∧
    jGetTop (c1Final now ver) kPV = some (.jstr (verString ver)) ∧
    jGetTop (c1Final now ver) kPython =
      some (.jobj (.ocons kPackages pkgVal (.ocons kFeatures ftVal .onil))) ∧
    jGetTop pkgVal kRequests = some (.jstr (("2.31.0").data)) ∧
    jGetTop ftVal kAsync = some (.jbool true) :=
  ⟨rfl, rfl, loads_dumps _ rfl, rfl, rfl, rfl, rfl, rfl, rfl, rfl, rfl, rfl⟩

/-- C2: counterexample — on the input document with azure.storage bound to
an empty mapping, the read of azure.storage.account on line 38 raises
KeyError, so the program field reads are not exception-free for every
document. -/
theorem claim_C2_counterexample :
    (readsPhase c2Doc).2 = Except.error (.keyError kAccount) := rfl

/-- C2 (amended): the reads that use .get with a default never fail on a
mapping and return the default exactly when the key is absent; the
positional azure.storage reads never fail provided azure is absent, or
azure is a mapping without storage, or azure.storage is a mapping that
contains account and container and whose key is a string — a missing leaf
under an existing azure.storage is not protected and raises KeyError. -/
theorem claim_C2 (m : JObj)
    (hsafe : objGet m kAzure = none ∨
      (∃ a, objGet m kAzure = some (.jobj a) ∧
        (objGet a kStorage = none ∨
          (∃ s, objGet a kStorage = some (.jobj s) ∧
            (∃ x, objGet s kAccount = some x) ∧
            (∃ ks, objGet s kKey = some (.jstr ks)) ∧
            (∃ y, objGet s kContainer = some y))))) :
    (readsPhase (.jobj m)).2 = Except.ok () ∧
    (∀ (k : Str) (d : JVal), pyGet (.jobj m) k d = .ok ((objGet m k).getD d)) ∧
    (∀ (k : Str) (d : JVal), objGet m k = none → pyGet (.jobj m) k d = .ok d) :=
  ⟨readsPhase_ok m hsafe, fun _ _ => rfl, fun k d h => by simp [pyGet, h]⟩

/-- C2 witness: the reads phase succeeds on the empty document. -/
theorem claim_C2_witness : (readsPhase (.jobj .onil)).2 = Except.ok () :=
  (claim_C2 .onil (Or.inl rfl)).1

/-- C3: counterexample — the key-display expression appends the ellipsis
marker even when the string is not longer than the bound, so a short string
is not returned unchanged. -/
theorem claim_C3_counterexample :
    (("abc").data : Str).length ≤ 20 ∧
    ¬truncate (("abc").data) 20 = ("abc").data := by
  decide

/-- C3 (amended): the key-display expression never fails, its result is
never longer than the bound plus the length of the ellipsis marker, and
when the string is within the bound the result is the string unchanged
followed by the marker (the marker is appended unconditionally). -/
theorem claim_C3 (s : Str) (n : Nat) :
    (truncate s n).length ≤ n + 3 ∧
    (s.length ≤ n → truncate s n = s ++ ['.', '.', '.']) := by
  constructor
  · simp [truncate]
  · intro h
    simp [truncate, List.take_of_length_le h]

/-- C3 witness at a short string and bound 5. -/
theorem claim_C3_witness :
    (truncate (("abc").data) 5).length ≤ 5 + 3 ∧
    truncate (("abc").data) 5 = ("abc").data ++ ['.', '.', '.'] :=
  ⟨(claim_C3 (("abc").data) 5).1, (claim_C3 (("abc").data) 5).2 (by decide)⟩

/-- C4: on a working directory without azure_credentials.json the tool
returns exit status 1 cleanly (no exception, hence no traceback), leaves
the directory untouched so no output file is created, and a human-readable
diagnostic line is printed. -/
theorem claim_C4 (fs : FS) (now : Str) (ver : Nat × Nat × Nat)
    (h : readFile fs inPath = none) :
    mainRun fs now ver = (fs, missingOuts, Except.ok 1) ∧
    Out.line ("❌ Error: azure_credentials.json not found") ∈ missingOuts := by
  constructor
  · simp [mainRun, h]
  · simp [missingOuts, hdrOuts]

/-- C4 witness: the empty working directory. -/
theorem claim_C4_witness :
    mainRun [] (("T").data) (3, 11, 4) = ([], missingOuts, Except.ok 1) ∧
    Out.line ("❌ Error: azure_credentials.json not found") ∈ missingOuts :=
  claim_C4 [] (("T").data) (3, 11, 4) rfl

/-- C5: for every well-formed document over the embedded value types,
parsing the serialized text yields the document back — the load/save pair
the program uses is lossless. -/
theorem claim_C5 (v : JVal) (hwf : wfV v = true) : loads (dumps v) = some v :=
  loads_dumps v hwf

/-- C5 witness on a document exercising every constructor. -/
theorem claim_C5_witness : wfV c5Doc = true ∧ loads (dumps c5Doc) = some c5Doc :=
  ⟨rfl, claim_C5 c5Doc rfl⟩

/-- C6: the update phase preserves every top-level key other than
python_processed_at, python_version and python: whenever it succeeds, the
updated document maps such a key to exactly its original value. -/
theorem claim_C6 (m : JObj) (now : Str) (ver : Nat × Nat × Nat) (c2 : JVal)
    (K : Str) (h : updatePhase (.jobj m) now ver = Except.ok c2)
    (h1 : ¬K = kPPA) (h2 : ¬K = kPV) (h3 : ¬K = kPython)
    (_hK : objHas m K = true) :
    jGetTop c2 K = objGet m K := by
  cases hp : objGet m kPython with
  | none =>
    rw [updatePhase_none m now ver hp] at h
    injection h with h
    rw [← h]
    simp only [jGetTop]
    rw [objGet_set_ne _ _ _ _ h3, objGet_set_ne _ _ _ _ h2,
      objGet_set_ne _ _ _ _ h1]
  | some p =>
    cases hpo : isObjB p with
    | false =>
      rw [updatePhase_bad m now ver p hp hpo] at h
      simp at h
    | true =>
      cases p with
      | jobj P =>
        rw [updatePhase_obj m now ver P hp] at h
        injection h with h
        rw [← h]
        simp only [jGetTop]
        rw [objGet_set_ne _ _ _ _ h3, objGet_set_ne _ _ _ _ h2,
          objGet_set_ne _ _ _ _ h1]
      | jnull => simp [isObjB] at hpo
      | jbool b => simp [isObjB] at hpo
      | jnum n => simp [isObjB] at hpo
      | jstr s => simp [isObjB] at hpo
      | jarr a => simp [isObjB] at hpo

/-- C6 witness: the azure key of a one-field document survives the update
unchanged. -/
theorem claim_C6_witness :
    jGetTop (.jobj (.ocons kAzure (.jnum 1)
      (.ocons kPPA (.jstr (("T").data))
        (.ocons kPV (.jstr (verString (3, 11, 4)))
          (.ocons kPython
            (.jobj (.ocons kPackages pkgVal (.ocons kFeatures ftVal .onil)))
            .onil))))) kAzure =
      objGet (.ocons kAzure (.jnum 1) .onil) kAzure :=
  claim_C6 (.ocons kAzure (.jnum 1) .onil) (("T").data) (3, 11, 4) _ kAzure rfl
    (by decide) (by decide) (by decide) rfl

/-- C7: the update phase is idempotent — whenever it succeeds, running it
again on its own output (with the same timestamp and version) returns that
output unchanged, because every update is a key overwrite. -/
theorem claim_C7 (doc : JVal) (now : Str) (ver : Nat × Nat × Nat) (c2 : JVal)
    (h : updatePhase doc now ver = Except.ok c2) :
    updatePhase c2 now ver = Except.ok c2 := by
  cases hdoc : isObjB doc with
  | false =>
    rw [updatePhase_nonobj doc now ver hdoc] at h
    simp at h
  | true =>
    cases doc with
    | jobj m =>
      cases hp : objGet m kPython with
      | none =>
        rw [updatePhase_none m now ver hp] at h
        injection h with h
        rw [← h]
        apply updatePhase_fix _ _ _
          (.ocons kPackages pkgVal (.ocons kFeatures ftVal .onil))
        · exact objGet_set_self _ _ _
        · rw [objGet_set_ne _ _ _ _ (by decide), objGet_set_ne _ _ _ _ (by decide)]
          exact objGet_set_self _ _ _
        · rw [objGet_set_ne _ _ _ _ (by decide)]
          exact objGet_set_self _ _ _
        · simp [objGet]
        · simp +decide [objGet]
      | some p =>
        cases hpo : isObjB p with
        | false =>
          rw [updatePhase_bad m now ver p hp hpo] at h
          simp at h
        | true =>
          cases p with
          | jobj P =>
            rw [updatePhase_obj m now ver P hp] at h
            injection h with h
            rw [← h]
            apply updatePhase_fix _ _ _
              (objSet (objSet P kPackages pkgVal) kFeatures ftVal)
            · exact objGet_set_self _ _ _
            · rw [objGet_set_ne _ _ _ _ (by decide),
                objGet_set_ne _ _ _ _ (by decide)]
              exact objGet_set_self _ _ _
            · rw [objGet_set_ne _ _ _ _ (by decide)]
              exact objGet_set_self _ _ _
            · rw [objGet_set_ne _ _ _ _ (by decide)]
              exact objGet_set_self _ _ _
            · exact objGet_set_self _ _ _
          | jnull => simp [isObjB] at hpo
          | jbool b => simp [isObjB] at hpo
          | jnum n => simp [isObjB] at hpo
          | jstr s => simp [isObjB] at hpo
          | jarr a => simp [isObjB] at hpo
    | jnull => simp [isObjB] at hdoc
    | jbool b => simp [isObjB] at hdoc
    | jnum n => simp [isObjB] at hdoc
    | jstr s => simp [isObjB] at hdoc
    | jarr a => simp [isObjB] at hdoc

/-- C7 witness: the update of the empty document is a fixed point of the
update. -/
theorem claim_C7_witness :
    updatePhase (.jobj (.ocons kPPA (.jstr (("T").data))
      (.ocons kPV (.jstr (verString (3, 11, 4)))
        (.ocons kPython
          (.jobj (.ocons kPackages pkgVal (.ocons kFeatures ftVal .onil)))
          .onil)))) (("T").data) (3, 11, 4) =
      Except.ok (.jobj (.ocons kPPA (.jstr (("T").data))
        (.ocons kPV (.jstr (verString (3, 11, 4)))
          (.ocons kPython
            (.jobj (.ocons kPackages pkgVal (.ocons kFeatures ftVal .onil)))
            .onil)))) :=
  claim_C7 (.jobj .onil) (("T").data) (3, 11, 4) _ rfl

/-- C8: when azure_credentials.json exists but does not parse as JSON, the
run terminates with the uncaught json.JSONDecodeError (a nonzero process
status with a traceback as its diagnostic) and the working directory is
unchanged, so no output file is written. -/
theorem claim_C8 (fs : FS) (c : Str) (now : Str) (ver : Nat × Nat × Nat)
    (h1 : readFile fs inPath = some c) (h2 : loads c = none) :
    mainRun fs now ver = (fs, hdrOuts, Except.error .jsonDecodeError) := by
  simp [mainRun, h1, h2]

/-- C8 witness: a directory whose input file holds an unterminated object. -/
theorem claim_C8_witness :
    mainRun [(inPath, badJson)] (("T").data) (3, 11, 4) =
      ([(inPath, badJson)], hdrOuts, Except.error .jsonDecodeError) :=
  claim_C8 [(inPath, badJson)] badJson (("T").data) (3, 11, 4) rfl rfl

/-- C9: no run ever writes to the input file — the content of
azure_credentials.json is the same before and after every run, the only
write going to the distinct output path. -/
theorem claim_C9 (fs : FS) (now : Str) (ver : Nat × Nat × Nat) :
    readFile (mainRun fs now ver).1 inPath = readFile fs inPath := by
  cases hrf : readFile fs inPath with
  | none => simp [mainRun, hrf]
  | some content =>
    cases hld : loads content with
    | none => simp [mainRun, hrf, hld]
    | some config =>
      rcases hrp : readsPhase config with ⟨outs1, res1⟩
      cases res1 with
      | error e => simp [mainRun, hrf, hld, hrp]
      | ok u =>
        cases hup : updatePhase config now ver with
        | error e => simp [mainRun, hrf, hld, hrp, hup]
        | ok config2 =>
          rcases hfp : finalPrints config2 with ⟨outs2, res2⟩
          cases res2 with
          | error e =>
            simp [mainRun, hrf, hld, hrp, hup, hfp,
              readFile_write_ne fs inPath outPath _ (by decide)]
          | ok u2 =>
            simp [mainRun, hrf, hld, hrp, hup, hfp,
              readFile_write_ne fs inPath outPath _ (by decide)]

/-- C10: when the parsed input is not a mapping, or binds the top-level key
python to a non-mapping, the run stops with an uncaught exception (a
nonzero process status) and the working directory is unchanged, so no
output file is written. -/
theorem claim_C10 (fs : FS) (c : Str) (doc : JVal) (now : Str)
    (ver : Nat × Nat × Nat)
    (h1 : readFile fs inPath = some c) (h2 : loads c = some doc)
    (hbad : isObjB doc = false ∨
      (∃ p, jGetTop doc kPython = some p ∧ isObjB p = false)) :
    (∃ e, (mainRun fs now ver).2.2 = Except.error e) ∧
    (mainRun fs now ver).1 = fs := by
  rcases hbad with hno | ⟨p, hp, hpo⟩
  · obtain ⟨e, he⟩ := readsPhase_nonobj doc hno
    rcases hrp : readsPhase doc with ⟨outs1, res1⟩
    rw [hrp] at he
    simp at he
    subst he
    refine ⟨⟨e, ?_⟩, ?_⟩ <;> simp [mainRun, h1, h2, hrp]
  · cases doc with
    | jobj m =>
      have hpm : objGet m kPython = some p := by simpa [jGetTop] using hp
      rcases hrp : readsPhase (.jobj m) with ⟨outs1, res1⟩
      cases res1 with
      | error e =>
        refine ⟨⟨e, ?_⟩, ?_⟩ <;> simp [mainRun, h1, h2, hrp]
      | ok u =>
        have hup := updatePhase_bad m now ver p hpm hpo
        refine ⟨⟨.typeError, ?_⟩, ?_⟩ <;> simp [mainRun, h1, h2, hrp, hup]
    | jnull => simp [jGetTop] at hp
    | jbool b => simp [jGetTop] at hp
    | jnum n => simp [jGetTop] at hp
    | jstr s => simp [jGetTop] at hp
    | jarr a => simp [jGetTop] at hp

/-- C10 witness: an input binding python to a string leaves the directory
unchanged. -/
theorem claim_C10_witness :
    (mainRun [(inPath, c10Text)] (("T").data) (3, 11, 4)).1 =
      [(inPath, c10Text)] :=
  (claim_C10 [(inPath, c10Text)] c10Text c10Doc (("T").data) (3, 11, 4) rfl rfl
    (Or.inr ⟨.jstr (("x").data), rfl, rfl⟩)).2
